import Mathlib

/-!
Verification of the Rendezvous private mutual-matching core.

This file is a shallow embedding, in Lean 4, of the parts of the
Rendezvous TypeScript code base that the checked claims are about:

* crypto primitives (`crypto.ts`): match-token derivation, commitments,
  constant-time comparison, token validation;
* the pool manager (`pool.ts`): effective-status computation;
* the storage layer (in-memory variant of `storage.ts`): preferences,
  match results, token-occurrence counting;
* the submission manager (`submission.ts` part of `index.ts`):
  validation, commit/direct submission with decoy padding, reveal
  handling;
* the match detector (`match.ts`): detection, local discovery;
* the eligibility gate system (`gates/index.ts`).

External primitives (X25519, SHA-256 from the `@noble` libraries) are
not part of the repository; they are modelled by concrete stand-in
functions that keep exactly the structure the code relies on (see the
doc comments on `sha256model` and `scalarMult`).  Hex encoding is
elided: tokens, hashes and keys are byte lists / naturals, which the
spec itself declares to be the semantics ("Hex/base64 is encoding, not
semantics").  JavaScript `Date` values become `Nat` timestamps,
`Math.random()` draws become explicit oracle parameters, and the
mutable store becomes explicit state passing.
-/

namespace Rendezvous

/-- Byte strings: the semantics of the hex-encoded values in the source. -/
abbrev Bytes := List Nat

/-- Bytes of a Lean string (model of `TextEncoder.encode`). -/
def strBytes (s : String) : Bytes :=
  s.toList.map Char.toNat

/-- Modelled from the spec: SHA-256 is an external primitive
(`@noble/hashes`); the code only relies on it being a fixed
deterministic function producing a 32-byte digest, so it is modelled by
a concrete mixing function with that shape.  No collision-resistance or
preimage property is assumed anywhere in this development. -/
def sha256model (input : Bytes) : Bytes :=
  let seed := input.foldl
    (fun acc b => (acc * 1099511628211 + b + 131) % 18446744073709551616)
    14695981039346656037
  (List.range 32).map (fun i => (seed / 2 ^ (i % 16) + 31 * i) % 256)

/-- Domain separation constant for match tokens (`MATCH_DOMAIN`). -/
def MATCH_DOMAIN : String := "rendezvous-match-v1"

/-- Domain separation constant for nullifiers (`NULLIFIER_DOMAIN`). -/
def NULLIFIER_DOMAIN : String := "rendezvous-nullifier-v1"

/-- Modelled from the spec: the order of the cyclic group used by the
X25519 Diffie-Hellman exchange (`@noble/curves`, an external library).
The spec requires only "the elliptic-curve Diffie-Hellman shared
secret", i.e. scalar multiplication in a cyclic group; the group is
modelled as `ZMod`-style multiplication of scalars modulo this prime. -/
def curveOrder : Nat := 2 ^ 252 + 27742317777372353535851937790883648493

/-- Modelled from the spec: the standard X25519 base point. -/
def basePoint : Nat := 9

/-- Modelled from the spec: `x25519.scalarMult`.  A group element is
represented by a natural below `curveOrder`; multiplying a point by a
scalar is multiplication modulo the group order, which is the abstract
content of scalar multiplication on a cyclic group. -/
def scalarMult (k : Nat) (p : Nat) : Nat :=
  (k * p) % curveOrder

/-- Modelled from the spec: `x25519.getPublicKey`, scalar-multiplying
the base point by the private scalar. -/
def getPublicKey (k : Nat) : Nat :=
  scalarMult k basePoint

/-- Little-endian byte serialization of a natural (model of the raw
32-byte shared-secret buffer fed into the hash). -/
def natBytes (n : Nat) : Bytes :=
  Nat.digits 256 n

/-- `deriveMatchToken` from `crypto.ts`: DH shared secret, then the
domain-separated hash `H(shared || pool_id || MATCH_DOMAIN)`. -/
def deriveMatchToken (myPrivateKey : Nat) (theirPublicKey : Nat) (poolId : String) : Bytes :=
  let shared := scalarMult myPrivateKey theirPublicKey
  sha256model (natBytes shared ++ strBytes poolId ++ strBytes MATCH_DOMAIN)

/-- `commitToken` from `crypto.ts`: the commitment is the hash of the
token. -/
def commitToken (matchToken : Bytes) : Bytes :=
  sha256model matchToken

/-- `constantTimeEqual` from `crypto.ts`: length check, then an
accumulated XOR over the code units. -/
def constantTimeEqual (a b : Bytes) : Bool :=
  if a.length ≠ b.length then false
  else decide ((List.zipWith (fun x y => Nat.xor x y) a b).foldl Nat.lor 0 = 0)

/-- `verifyCommitment` from `crypto.ts`. -/
def verifyCommitment (matchToken : Bytes) (commitHash : Bytes) : Bool :=
  constantTimeEqual (commitToken matchToken) commitHash

/-- `deriveNullifier` from `crypto.ts`. -/
def deriveNullifier (privateKey : Nat) (poolId : String) : Bytes :=
  sha256model (natBytes privateKey ++ strBytes poolId ++ strBytes NULLIFIER_DOMAIN)

/-- `isValidMatchToken` from `crypto.ts`: the 64-hex-character check,
i.e. the token decodes to exactly 32 bytes. -/
def isValidMatchToken (token : Bytes) : Bool :=
  token.length == 32 && token.all (· < 256)

theorem lor_eq_zero_parts {x y : Nat} (h : Nat.lor x y = 0) : x = 0 ∧ y = 0 := by
  constructor
  · apply Nat.eq_of_testBit_eq
    intro i
    have hbit : (x ||| y).testBit i = Nat.testBit 0 i := congrArg (fun n => Nat.testBit n i) h
    simp only [Nat.testBit_or, Nat.zero_testBit, Bool.or_eq_false_iff] at hbit
    simp [hbit.1]
  · apply Nat.eq_of_testBit_eq
    intro i
    have hbit : (x ||| y).testBit i = Nat.testBit 0 i := congrArg (fun n => Nat.testBit n i) h
    simp only [Nat.testBit_or, Nat.zero_testBit, Bool.or_eq_false_iff] at hbit
    simp [hbit.2]

theorem foldl_lor_eq_zero (l : List Nat) (a : Nat) :
    l.foldl Nat.lor a = 0 ↔ a = 0 ∧ ∀ x ∈ l, x = 0 := by
  induction l generalizing a with
  | nil => simp
  | cons x xs ih =>
    simp only [List.foldl_cons, ih, List.mem_cons]
    constructor
    · rintro ⟨h0, hall⟩
      obtain ⟨ha, hx⟩ := lor_eq_zero_parts h0
      refine ⟨ha, ?_⟩
      intro y hy
      rcases hy with rfl | hy
      · exact hx
      · exact hall y hy
    · rintro ⟨rfl, hall⟩
      have hx : x = 0 := hall x (Or.inl rfl)
      subst hx
      exact ⟨rfl, fun y hy => hall y (Or.inr hy)⟩

theorem zipWith_xor_all_zero (a b : Bytes) (hl : a.length = b.length) :
    (∀ x ∈ List.zipWith (fun x y => Nat.xor x y) a b, x = 0) ↔ a = b := by
  induction a generalizing b with
  | nil =>
    cases b with
    | nil => simp
    | cons y ys => simp at hl
  | cons x xs ih =>
    cases b with
    | nil => simp at hl
    | cons y ys =>
      simp only [List.zipWith_cons_cons, List.mem_cons, List.cons.injEq]
      have hl' : xs.length = ys.length := by simpa using hl
      constructor
      · intro h
        have hxy : Nat.xor x y = 0 := h _ (Or.inl rfl)
        refine ⟨Nat.xor_eq_zero.mp hxy, (ih ys hl').mp ?_⟩
        intro z hz
        exact h z (Or.inr hz)
      · rintro ⟨rfl, rfl⟩
        intro z hz
        rcases hz with rfl | hz
        · exact Nat.xor_self x
        · exact ((ih _ hl').mpr rfl) z hz

theorem constantTimeEqual_iff (a b : Bytes) : constantTimeEqual a b = true ↔ a = b := by
  unfold constantTimeEqual
  by_cases hl : a.length = b.length
  · rw [if_neg (not_not_intro hl), decide_eq_true_eq, foldl_lor_eq_zero,
      zipWith_xor_all_zero a b hl]
    simp
  · rw [if_pos hl]
    constructor
    · intro h
      exact absurd h (by simp)
    · rintro rfl
      exact absurd rfl hl

theorem verifyCommitment_commitToken (t : Bytes) :
    verifyCommitment t (commitToken t) = true := by
  unfold verifyCommitment
  exact (constantTimeEqual_iff _ _).mpr rfl

/-- The two Diffie-Hellman computations agree: `a · (b · G) = b · (a · G)`. -/
theorem scalarMult_getPublicKey_comm (a b : Nat) :
    scalarMult a (getPublicKey b) = scalarMult b (getPublicKey a) := by
  unfold scalarMult getPublicKey scalarMult
  have hmod : ∀ x y : Nat, (x * (y % curveOrder)) % curveOrder = (x * y) % curveOrder := by
    intro x y
    conv_rhs => rw [Nat.mul_mod]
    rw [Nat.mul_mod, Nat.mod_mod_of_dvd _ (dvd_refl curveOrder)]
  rw [hmod, hmod]
  ring_nf

/-- Claim C1: for every pair of X25519 keypairs and every pool id, the
match token derived by A from B's public key equals the match token
derived by B from A's public key: both sides hash the same shared
secret together with the pool id and the fixed domain separator. -/
theorem deriveMatchToken_symm (aPriv bPriv : Nat) (poolId : String) :
    deriveMatchToken aPriv (getPublicKey bPriv) poolId
      = deriveMatchToken bPriv (getPublicKey aPriv) poolId := by
  unfold deriveMatchToken
  rw [scalarMult_getPublicKey_comm]

/-! ## Data model (`types.ts`, storage records) -/

/-- Pool status (`PoolStatus` in `types.ts`). -/
inductive PoolStatus where
  | open'
  | commit
  | reveal
  | closed
deriving DecidableEq, Repr

/-- Error codes (`RendezvousErrorCode` in `types.ts`), restricted to the
codes the modelled operations can produce. -/
inductive RendezvousErrorCode where
  | POOL_NOT_FOUND
  | POOL_CLOSED
  | POOL_NOT_IN_COMMIT_PHASE
  | POOL_NOT_IN_REVEAL_PHASE
  | DUPLICATE_NULLIFIER
  | PREFERENCE_LIMIT_EXCEEDED
  | COMMITMENT_NOT_FOUND
  | COMMITMENT_MISMATCH
  | INVALID_INPUT
  | INTERNAL_ERROR
deriving DecidableEq, Repr

/-- Pool record (`Pool` in `types.ts`), with the fields the modelled
operations read.  `Date` values are `Nat` millisecond timestamps. -/
structure Pool where
  id : String
  name : String
  commitDeadline : Option Nat
  revealDeadline : Nat
  maxPreferencesPerParticipant : Option Nat
  status : PoolStatus
deriving DecidableEq, Repr

/-- Preference record (`Preference` in `types.ts`). -/
structure Preference where
  id : String
  poolId : String
  matchToken : Bytes
  commitHash : Option Bytes
  revealed : Bool
  submittedAt : Nat
  nullifier : String
  encryptedReveal : Option String
deriving DecidableEq, Repr

/-- Witness attestation (`WitnessProof` in `types.ts`), reduced to the
attested hash: the claims only need to observe whether and on what the
adapter was invoked. -/
structure WitnessProof where
  hash : Bytes
deriving DecidableEq, Repr

/-- Match result record (`MatchResult` in `types.ts`). -/
structure MatchResult where
  poolId : String
  matchedTokens : List Bytes
  totalSubmissions : Nat
  uniqueParticipants : Nat
  detectedAt : Nat
  witnessProof : Option WitnessProof
deriving DecidableEq, Repr

/-- The in-memory store (`InMemoryStore` in `storage.ts`): its three
maps that the modelled operations touch, as insertion-ordered lists. -/
structure Store where
  pools : List Pool
  preferences : List Preference
  matchResults : List MatchResult
deriving DecidableEq, Repr

/-! ## Storage operations (in-memory variant, `storage.ts`) -/

/-- `InMemoryStore.getPool`. -/
def Store.getPool (s : Store) (id : String) : Option Pool :=
  s.pools.find? (fun p => p.id = id)

/-- `InMemoryStore.updatePoolStatus`. -/
def Store.updatePoolStatus (s : Store) (id : String) (status : PoolStatus) : Store :=
  { s with pools := s.pools.map (fun p => if p.id = id then { p with status := status } else p) }

/-- `InMemoryStore.insertPreference` (a `Map.set` keyed by a fresh id;
modelled as appending to the insertion-ordered list). -/
def Store.insertPreference (s : Store) (p : Preference) : Store :=
  { s with preferences := s.preferences ++ [p] }

/-- Stable insertion by `submittedAt` (model of the ascending sort in
`InMemoryStore.getPreferences`: a preference is placed before the first
strictly-later entry, preserving the relative order of equal keys). -/
def insertByTime (p : Preference) : List Preference → List Preference
  | [] => [p]
  | q :: qs => if p.submittedAt ≤ q.submittedAt then p :: q :: qs else q :: insertByTime p qs

/-- Stable sort by submission time (ascending), as performed by
`InMemoryStore.getPreferences`. -/
def sortByTime (l : List Preference) : List Preference :=
  l.foldr insertByTime []

/-- The filter of `InMemoryStore.getPreferences` for a given pool id and
optional nullifier / revealed filters. -/
def prefFilter (poolId : Option String) (nullifier : Option String) (revealed : Option Bool)
    (p : Preference) : Bool :=
  (match poolId with | none => true | some pid => p.poolId = pid) &&
  (match nullifier with | none => true | some n => p.nullifier = n) &&
  (match revealed with | none => true | some r => p.revealed = r)

/-- `InMemoryStore.getPreferences`: filter then sort by submission time. -/
def Store.getPreferences (s : Store) (poolId : Option String) (nullifier : Option String)
    (revealed : Option Bool) : List Preference :=
  sortByTime (s.preferences.filter (prefFilter poolId nullifier revealed))

/-- `InMemoryStore.getPreferencesByPoolId`. -/
def Store.getPreferencesByPoolId (s : Store) (poolId : String) : List Preference :=
  s.getPreferences (some poolId) none none

/-- `InMemoryStore.getPreferencesByNullifier`. -/
def Store.getPreferencesByNullifier (s : Store) (poolId nullifier : String) : List Preference :=
  s.getPreferences (some poolId) (some nullifier) none

/-- `InMemoryStore.countPreferencesByNullifier`. -/
def Store.countPreferencesByNullifier (s : Store) (poolId nullifier : String) : Nat :=
  (s.getPreferencesByNullifier poolId nullifier).length

/-- `InMemoryStore.updatePreferenceRevealed`: set `revealed = true` and
overwrite the stored match token on the preference with the given id. -/
def Store.updatePreferenceRevealed (s : Store) (id : String) (matchToken : Bytes) : Store :=
  let upd := fun (p : Preference) =>
    if p.id = id then { p with revealed := true, matchToken := matchToken } else p
  { s with preferences := s.preferences.map upd }

/-- `InMemoryStore.insertMatchResult`: a `Map.set` keyed on `poolId`,
i.e. replace the entry for the pool if present, else append.  (The
SQLite variant reaches the same upsert via `INSERT OR REPLACE` together
with the `UNIQUE` constraint on `match_results.poolId`.) -/
def Store.insertMatchResult (s : Store) (r : MatchResult) : Store :=
  { s with matchResults :=
      if s.matchResults.any (fun m => m.poolId = r.poolId)
      then s.matchResults.map (fun m => if m.poolId = r.poolId then r else m)
      else s.matchResults ++ [r] }

/-- `InMemoryStore.getMatchResult`. -/
def Store.getMatchResult (s : Store) (poolId : String) : Option MatchResult :=
  s.matchResults.find? (fun m => m.poolId = poolId)

/-- One step of the counting loop in
`InMemoryStore.countTokenOccurrences`: `counts.set(t, (counts.get(t) ?? 0) + 1)`
on an insertion-ordered association list. -/
def bumpToken (m : List (Bytes × Nat)) (t : Bytes) : List (Bytes × Nat) :=
  if m.any (fun kv => kv.1 = t)
  then m.map (fun kv => if kv.1 = t then (kv.1, kv.2 + 1) else kv)
  else m ++ [(t, 1)]

/-- `InMemoryStore.countTokenOccurrences`: token → number of revealed
preferences of the pool carrying that token. -/
def Store.countTokenOccurrences (s : Store) (poolId : String) : List (Bytes × Nat) :=
  (s.getPreferences (some poolId) none (some true)).foldl
    (fun m p => bumpToken m p.matchToken) []

/-! ## Pool manager (`pool.ts`) -/

/-- `PoolManager.getEffectiveStatus`: the effective status of a pool at
time `now`, straight from the four-way branch in `pool.ts`. -/
def getEffectiveStatus (pool : Pool) (now : Nat) : PoolStatus :=
  if pool.status = .closed then .closed
  else if now ≥ pool.revealDeadline then .closed
  else match pool.commitDeadline with
    | some cd => if now ≥ cd then .reveal else .commit
    | none => .open'

/-- `PoolManager.updatePoolStatus`: persist the effective status when it
differs from the stored one.  Returns the store; the refreshed pool is
recovered with `getPool`. -/
def updatePoolStatusStore (s : Store) (poolId : String) (now : Nat) : Store :=
  match s.getPool poolId with
  | none => s
  | some pool =>
    let eff := getEffectiveStatus pool now
    if pool.status ≠ eff then s.updatePoolStatus poolId eff else s

/-- `PoolManager.isClosed`. -/
def isClosed (pool : Pool) (now : Nat) : Bool :=
  getEffectiveStatus pool now = .closed

/-- Restatement of the claim's four-way case split as a pure function of
the quadruple (stored status, commit deadline, reveal deadline, now);
this is the spec side of the C3 refinement, written from the spec's
words rather than from the code. -/
def effectiveStatusSpec (stored : PoolStatus) (cd : Option Nat) (rd : Nat) (now : Nat) :
    PoolStatus :=
  if stored = .closed ∨ now ≥ rd then .closed
  else if cd.isSome ∧ now ≥ cd.getD 0 then .reveal
  else if cd.isSome then .commit
  else .open'

/-- Claim C3: the effective status is exactly the claimed four-way case
split; it is a pure function of (stored status, commit deadline, reveal
deadline, now); and `closed` is absorbing, both from the stored status
and over time. -/
theorem getEffectiveStatus_correct (p q : Pool) (now now' : Nat) :
    getEffectiveStatus p now
        = effectiveStatusSpec p.status p.commitDeadline p.revealDeadline now
    ∧ (p.status = .closed → getEffectiveStatus p now = .closed)
    ∧ (now ≤ now' → getEffectiveStatus p now = .closed → getEffectiveStatus p now' = .closed)
    ∧ (p.status = q.status → p.commitDeadline = q.commitDeadline →
        p.revealDeadline = q.revealDeadline →
        getEffectiveStatus p now = getEffectiveStatus q now) := by
  refine ⟨?_, ?_, ?_, ?_⟩
  · unfold getEffectiveStatus effectiveStatusSpec
    by_cases hc : p.status = .closed
    · simp [hc]
    · by_cases hr : now ≥ p.revealDeadline
      · simp [hc, hr]
      · cases hcd : p.commitDeadline with
        | none => simp [hc, hr, hcd]
        | some cd =>
          by_cases hnow : now ≥ cd
          · simp [hc, hr, hcd, hnow]
          · simp [hc, hr, hcd, hnow]
  · intro hc
    unfold getEffectiveStatus
    simp [hc]
  · intro hle hclosed
    unfold getEffectiveStatus at hclosed ⊢
    by_cases hc : p.status = .closed
    · simp [hc]
    · simp only [hc, if_false] at hclosed
      by_cases hr : now ≥ p.revealDeadline
      · have hr' : now' ≥ p.revealDeadline := le_trans hr hle
        simp [hc, hr']
      · simp only [hr, if_false] at hclosed
        cases hcd : p.commitDeadline with
        | none => simp [hcd] at hclosed
        | some cd =>
          simp only [hcd] at hclosed
          by_cases hnow : now ≥ cd <;> simp [hnow] at hclosed
  · intro h1 h2 h3
    unfold getEffectiveStatus
    rw [h1, h2, h3]

/-- Witness for C3 at a concrete pool: stored status `reveal`, commit
deadline 10, reveal deadline 100, evaluated at times 50 and 60. -/
theorem getEffectiveStatus_correct_witness :
    getEffectiveStatus ⟨"p", "n", some 10, 100, none, .reveal⟩ 50
        = effectiveStatusSpec .reveal (some 10) 100 50
    ∧ getEffectiveStatus ⟨"p", "n", some 10, 100, none, .closed⟩ 50 = .closed
    ∧ getEffectiveStatus ⟨"p", "n", some 10, 100, none, .reveal⟩ 130 = .closed := by
  refine ⟨(getEffectiveStatus_correct ⟨"p", "n", some 10, 100, none, .reveal⟩
      ⟨"p", "n", some 10, 100, none, .reveal⟩ 50 50).1,
    (getEffectiveStatus_correct ⟨"p", "n", some 10, 100, none, .closed⟩
      ⟨"p", "n", some 10, 100, none, .closed⟩ 50 50).2.1 rfl,
    (getEffectiveStatus_correct ⟨"p", "n", some 10, 100, none, .reveal⟩
      ⟨"p", "n", some 10, 100, none, .reveal⟩ 120 130).2.2.1 (by decide) (by decide)⟩

/-! ## Submission manager (`submission.ts`) -/

/-- One entry of the optional reveal data attached to a submission. -/
structure RevealDataEntry where
  matchToken : Bytes
  encryptedReveal : String
deriving DecidableEq, Repr

/-- `SubmitPreferencesRequest` from `types.ts`. -/
structure SubmitPreferencesRequest where
  poolId : String
  matchTokens : List Bytes
  commitHashes : Option (List Bytes)
  nullifier : String
  eligibilityProof : Option String
  revealData : Option (List RevealDataEntry)
deriving DecidableEq, Repr

/-- `RevealPreferencesRequest` from `types.ts`. -/
structure RevealPreferencesRequest where
  poolId : String
  matchTokens : List Bytes
  nullifier : String
deriving DecidableEq, Repr

/-- `SubmissionResult` from `submission.ts` (the human-readable message
is dropped). -/
structure SubmissionResult where
  success : Bool
  preferenceIds : List String
  phase : PoolStatus
deriving DecidableEq, Repr

/-- `RevealResult` from `submission.ts`. -/
structure RevealResult where
  success : Bool
  revealedCount : Nat
deriving DecidableEq, Repr

/-- `SubmissionManager.hasSubmitted`. -/
def hasSubmitted (s : Store) (poolId nullifier : String) : Bool :=
  s.countPreferencesByNullifier poolId nullifier > 0

/-- `SubmissionManager.validateSubmission`, with the checks in source
order; returns the first failing check's error code.  The JavaScript
truthiness test on `maxPreferencesPerParticipant` skips the limit when
it is 0, which the model preserves. -/
def validateSubmission (s : Store) (req : SubmitPreferencesRequest) (pool : Pool) (now : Nat) :
    Option RendezvousErrorCode :=
  if req.nullifier = "" then some .INVALID_INPUT
  else if hasSubmitted s pool.id req.nullifier then some .DUPLICATE_NULLIFIER
  else if req.matchTokens = [] then some .INVALID_INPUT
  else if (match pool.maxPreferencesPerParticipant with
      | some m => m ≠ 0 && req.matchTokens.length > m
      | none => false) then some .PREFERENCE_LIMIT_EXCEEDED
  else if req.matchTokens.any (fun t => !isValidMatchToken t) then some .INVALID_INPUT
  else if decide (getEffectiveStatus pool now = .commit)
      && (match req.commitHashes with
          | some hs => decide (hs.length ≠ req.matchTokens.length)
          | none => false) then some .INVALID_INPUT
  else none

/-- The decoy count drawn in `generateDecoyTokens`:
`DECOY_MIN + floor(random * (DECOY_MAX - DECOY_MIN + 1))` with
`DECOY_MIN = 3`, `DECOY_MAX = 8`; the random draw in `[0, 5]` is
modelled by `rc % 6` for an arbitrary oracle value `rc`. -/
def decoyCount (rc : Nat) : Nat :=
  3 + rc % 6

/-- `generateDecoyTokens`: `decoyCount rc` fresh random 32-byte tokens,
the randomness supplied by the oracle `decoyGen`. -/
def generateDecoyTokens (rc : Nat) (decoyGen : Nat → Bytes) : List Bytes :=
  (List.range (decoyCount rc)).map decoyGen

/-- Lookup in the `matchToken → encryptedReveal` map built at the top of
both submission handlers (`Map.set` keeps the last entry for a key). -/
def revealLookup (req : SubmitPreferencesRequest) (t : Bytes) : Option String :=
  ((req.revealData.getD []).reverse.find? (fun e => e.matchToken = t)).map
    (fun e => e.encryptedReveal)

/-- The `i`-th real preference written by `handleCommitSubmission`:
commit hash taken from the client when supplied and non-empty, else
recomputed; not yet revealed. -/
def mkCommitPref (req : SubmitPreferencesRequest) (now : Nat) (idGen : Nat → String)
    (i : Nat) : Preference :=
  let token := req.matchTokens.getD i []
  let supplied := (req.commitHashes.getD []).getD i []
  let commit := if supplied = [] then commitToken token else supplied
  { id := idGen i
    poolId := req.poolId
    matchToken := token
    commitHash := some commit
    revealed := false
    submittedAt := now
    nullifier := req.nullifier
    encryptedReveal := revealLookup req token }

/-- A decoy preference written by `handleCommitSubmission`: a random
token committed to its own hash, unrevealed, no reveal payload. -/
def mkCommitDecoy (req : SubmitPreferencesRequest) (now : Nat) (idGen : Nat → String)
    (decoyGen : Nat → Bytes) (i : Nat) : Preference :=
  let d := decoyGen i
  { id := idGen (req.matchTokens.length + i)
    poolId := req.poolId
    matchToken := d
    commitHash := some (commitToken d)
    revealed := false
    submittedAt := now
    nullifier := req.nullifier
    encryptedReveal := none }

/-- The `i`-th real preference written by `handleDirectSubmission`:
directly revealed, no commit hash. -/
def mkDirectPref (req : SubmitPreferencesRequest) (now : Nat) (idGen : Nat → String)
    (i : Nat) : Preference :=
  let token := req.matchTokens.getD i []
  { id := idGen i
    poolId := req.poolId
    matchToken := token
    commitHash := none
    revealed := true
    submittedAt := now
    nullifier := req.nullifier
    encryptedReveal := revealLookup req token }

/-- A decoy preference written by `handleDirectSubmission`. -/
def mkDirectDecoy (req : SubmitPreferencesRequest) (now : Nat) (idGen : Nat → String)
    (decoyGen : Nat → Bytes) (i : Nat) : Preference :=
  let d := decoyGen i
  { id := idGen (req.matchTokens.length + i)
    poolId := req.poolId
    matchToken := d
    commitHash := none
    revealed := true
    submittedAt := now
    nullifier := req.nullifier
    encryptedReveal := none }

/-- `SubmissionManager.handleCommitSubmission`: insert one unrevealed
preference per real token (client hash or recomputed commitment), then
`decoyCount rc` decoy preferences; only real ids are returned. -/
def handleCommitSubmission (s : Store) (req : SubmitPreferencesRequest) (now rc : Nat)
    (decoyGen : Nat → Bytes) (idGen : Nat → String) : SubmissionResult × Store :=
  let real := (List.range req.matchTokens.length).map (mkCommitPref req now idGen)
  let decoys := (List.range (decoyCount rc)).map (mkCommitDecoy req now idGen decoyGen)
  (⟨true, real.map (fun p => p.id), .commit⟩,
    { s with preferences := s.preferences ++ real ++ decoys })

/-- `SubmissionManager.handleDirectSubmission`: insert one revealed
preference per real token, then the decoys; only real ids returned. -/
def handleDirectSubmission (s : Store) (req : SubmitPreferencesRequest) (now rc : Nat)
    (decoyGen : Nat → Bytes) (idGen : Nat → String) : SubmissionResult × Store :=
  let real := (List.range req.matchTokens.length).map (mkDirectPref req now idGen)
  let decoys := (List.range (decoyCount rc)).map (mkDirectDecoy req now idGen decoyGen)
  (⟨true, real.map (fun p => p.id), .reveal⟩,
    { s with preferences := s.preferences ++ real ++ decoys })

/-- `SubmissionManager.submitPreferences`: look the pool up, refresh its
stored status, validate, then dispatch on the effective status.  The
randomness of `Math.random` and `uuidv4` is supplied by the oracles
`rc`, `decoyGen` and `idGen`; the single `now` stands for the
millisecond instant of the request. -/
def submitPreferences (s : Store) (req : SubmitPreferencesRequest) (now rc : Nat)
    (decoyGen : Nat → Bytes) (idGen : Nat → String) :
    Except RendezvousErrorCode SubmissionResult × Store :=
  match s.getPool req.poolId with
  | none => (.error .POOL_NOT_FOUND, s)
  | some pool =>
    let s1 := updatePoolStatusStore s req.poolId now
    match validateSubmission s1 req pool now with
    | some e => (.error e, s1)
    | none =>
      match getEffectiveStatus pool now with
      | .commit =>
        let (res, s2) := handleCommitSubmission s1 req now rc decoyGen idGen
        (.ok res, s2)
      | .open' =>
        let (res, s2) := handleDirectSubmission s1 req now rc decoyGen idGen
        (.ok res, s2)
      | .reveal =>
        let (res, s2) := handleDirectSubmission s1 req now rc decoyGen idGen
        (.ok res, s2)
      | .closed => (.error .POOL_CLOSED, s1)

/-! Supporting lemmas about the store operations. -/

theorem length_insertByTime (p : Preference) (l : List Preference) :
    (insertByTime p l).length = l.length + 1 := by
  induction l with
  | nil => rfl
  | cons q qs ih =>
    unfold insertByTime
    by_cases h : p.submittedAt ≤ q.submittedAt
    · simp [h]
    · simp [h, ih]

theorem length_sortByTime (l : List Preference) :
    (sortByTime l).length = l.length := by
  unfold sortByTime
  induction l with
  | nil => rfl
  | cons q qs ih => simp [List.foldr_cons, length_insertByTime, ih]

theorem mem_insertByTime (a p : Preference) (l : List Preference) :
    a ∈ insertByTime p l ↔ a = p ∨ a ∈ l := by
  induction l with
  | nil => simp [insertByTime]
  | cons q qs ih =>
    unfold insertByTime
    by_cases h : p.submittedAt ≤ q.submittedAt
    · simp [h]
    · simp [h, ih]
      tauto

theorem mem_sortByTime (a : Preference) (l : List Preference) :
    a ∈ sortByTime l ↔ a ∈ l := by
  unfold sortByTime
  induction l with
  | nil => simp
  | cons q qs ih => simp [List.foldr_cons, mem_insertByTime, ih]

theorem countP_insertByTime (f : Preference → Bool) (p : Preference) (l : List Preference) :
    (insertByTime p l).countP f = l.countP f + if f p then 1 else 0 := by
  induction l with
  | nil => simp [insertByTime, List.countP_cons]
  | cons q qs ih =>
    unfold insertByTime
    by_cases h : p.submittedAt ≤ q.submittedAt
    · simp [if_pos h, List.countP_cons]
    · simp only [if_neg h, List.countP_cons, ih]
      split_ifs <;> omega

theorem countP_sortByTime (f : Preference → Bool) (l : List Preference) :
    (sortByTime l).countP f = l.countP f := by
  unfold sortByTime
  induction l with
  | nil => rfl
  | cons q qs ih =>
    simp only [List.foldr_cons, List.countP_cons]
    rw [countP_insertByTime]
    unfold sortByTime at ih
    rw [ih]

theorem updatePoolStatusStore_preferences (s : Store) (pid : String) (now : Nat) :
    (updatePoolStatusStore s pid now).preferences = s.preferences := by
  unfold updatePoolStatusStore
  cases h : s.getPool pid with
  | none => rfl
  | some pool =>
    by_cases hs : pool.status ≠ getEffectiveStatus pool now
    · simp [hs, Store.updatePoolStatus]
    · simp [hs]

theorem updatePoolStatusStore_matchResults (s : Store) (pid : String) (now : Nat) :
    (updatePoolStatusStore s pid now).matchResults = s.matchResults := by
  unfold updatePoolStatusStore
  cases h : s.getPool pid with
  | none => rfl
  | some pool =>
    by_cases hs : pool.status ≠ getEffectiveStatus pool now
    · simp [hs, Store.updatePoolStatus]
    · simp [hs]

theorem getPool_id (s : Store) (pid : String) (pool : Pool)
    (h : s.getPool pid = some pool) : pool.id = pid := by
  unfold Store.getPool at h
  have := List.find?_some h
  simpa using this

theorem countPreferencesByNullifier_pos (s : Store) (pid nul : String) :
    0 < s.countPreferencesByNullifier pid nul
      ↔ ∃ p ∈ s.preferences, p.poolId = pid ∧ p.nullifier = nul := by
  unfold Store.countPreferencesByNullifier Store.getPreferencesByNullifier Store.getPreferences
  rw [length_sortByTime]
  rw [List.length_pos_iff_exists_mem]
  constructor
  · rintro ⟨p, hp⟩
    rw [List.mem_filter] at hp
    refine ⟨p, hp.1, ?_⟩
    have := hp.2
    unfold prefFilter at this
    simp only [Bool.and_eq_true, decide_eq_true_eq] at this
    exact ⟨this.1.1, this.1.2⟩
  · rintro ⟨p, hp, h1, h2⟩
    refine ⟨p, ?_⟩
    rw [List.mem_filter]
    refine ⟨hp, ?_⟩
    unfold prefFilter
    simp [h1, h2]

/-- Claim C4: if any preference is already stored under the requested
(pool, nullifier) pair, a submission with that nullifier fails with
`DUPLICATE_NULLIFIER` and the stored preferences are untouched.  (Every
stored preference carries a non-empty nullifier, since submission
validation rejects empty ones before inserting; the hypothesis records
this.) -/
theorem submitPreferences_duplicate_nullifier (s : Store) (req : SubmitPreferencesRequest)
    (now rc : Nat) (decoyGen : Nat → Bytes) (idGen : Nat → String) (pool : Pool)
    (hpool : s.getPool req.poolId = some pool)
    (hnul : req.nullifier ≠ "")
    (hdup : ∃ p ∈ s.preferences, p.poolId = req.poolId ∧ p.nullifier = req.nullifier) :
    (submitPreferences s req now rc decoyGen idGen).1 = .error .DUPLICATE_NULLIFIER
    ∧ (submitPreferences s req now rc decoyGen idGen).2.preferences = s.preferences := by
  have hid : pool.id = req.poolId := getPool_id s req.poolId pool hpool
  have hprefs : (updatePoolStatusStore s req.poolId now).preferences = s.preferences :=
    updatePoolStatusStore_preferences s req.poolId now
  have hcount : hasSubmitted (updatePoolStatusStore s req.poolId now) pool.id req.nullifier
      = true := by
    unfold hasSubmitted
    rw [decide_eq_true_eq, gt_iff_lt]
    rw [countPreferencesByNullifier_pos, hprefs, hid]
    exact hdup
  have hval : validateSubmission (updatePoolStatusStore s req.poolId now) req pool now
      = some .DUPLICATE_NULLIFIER := by
    unfold validateSubmission
    rw [if_neg hnul, hcount]
    simp
  have hres : submitPreferences s req now rc decoyGen idGen
      = (.error .DUPLICATE_NULLIFIER, updatePoolStatusStore s req.poolId now) := by
    unfold submitPreferences
    rw [hpool]
    simp [hval]
  rw [hres]
  exact ⟨rfl, hprefs⟩

/-- Witness for C4: a one-pool store already holding a preference under
nullifier `"n1"`; the duplicate submission is rejected and the stored
preference persists. -/
theorem submitPreferences_duplicate_nullifier_witness :
    (submitPreferences
        ⟨[⟨"pool1", "Pool", none, 100, none, .open'⟩],
         [⟨"pref1", "pool1", [1], none, true, 5, "n1", none⟩], []⟩
        ⟨"pool1", [[2]], none, "n1", none, none⟩ 10 0 (fun _ => [0]) (fun i => toString i)).1
      = .error .DUPLICATE_NULLIFIER
    ∧ (submitPreferences
        ⟨[⟨"pool1", "Pool", none, 100, none, .open'⟩],
         [⟨"pref1", "pool1", [1], none, true, 5, "n1", none⟩], []⟩
        ⟨"pool1", [[2]], none, "n1", none, none⟩ 10 0 (fun _ => [0]) (fun i => toString i)).2.preferences
      = [⟨"pref1", "pool1", [1], none, true, 5, "n1", none⟩] :=
  submitPreferences_duplicate_nullifier _ _ 10 0 _ _
    ⟨"pool1", "Pool", none, 100, none, .open'⟩ (by decide) (by decide) (by decide)

theorem decoyCount_bounds (rc : Nat) : 3 ≤ decoyCount rc ∧ decoyCount rc ≤ 8 := by
  unfold decoyCount
  have := Nat.mod_lt rc (show 0 < 6 by decide)
  omega

/-- Claim C5: every accepted submission, on the commit path and on the
direct path alike, additionally stores between 3 and 8 decoy
preferences with 32-byte random tokens under the same nullifier; the
returned ids are exactly one per real token, contain no decoy id, and
in the commit phase every decoy carries a valid commitment of its own
token. -/
theorem submitPreferences_decoy_padding (s : Store) (req : SubmitPreferencesRequest)
    (now rc : Nat) (decoyGen : Nat → Bytes) (idGen : Nat → String) (pool : Pool)
    (hpool : s.getPool req.poolId = some pool)
    (hval : validateSubmission (updatePoolStatusStore s req.poolId now) req pool now = none)
    (heff : getEffectiveStatus pool now = .commit ∨ getEffectiveStatus pool now = .open'
      ∨ getEffectiveStatus pool now = .reveal)
    (hgen : ∀ i, (decoyGen i).length = 32)
    (hinj : Function.Injective idGen) :
    ∃ res s', submitPreferences s req now rc decoyGen idGen = (.ok res, s')
      ∧ ∃ realPrefs decoyPrefs : List Preference,
        s'.preferences = s.preferences ++ realPrefs ++ decoyPrefs
        ∧ realPrefs.length = req.matchTokens.length
        ∧ 3 ≤ decoyPrefs.length ∧ decoyPrefs.length ≤ 8
        ∧ res.preferenceIds = realPrefs.map (fun p => p.id)
        ∧ (∀ d ∈ decoyPrefs, d.nullifier = req.nullifier ∧ d.matchToken.length = 32
            ∧ d.id ∉ res.preferenceIds)
        ∧ (getEffectiveStatus pool now = .commit →
            ∀ d ∈ decoyPrefs, ∃ c, d.commitHash = some c
              ∧ verifyCommitment d.matchToken c = true) := by
  have hprefs : (updatePoolStatusStore s req.poolId now).preferences = s.preferences :=
    updatePoolStatusStore_preferences s req.poolId now
  have hb := decoyCount_bounds rc
  set n := req.matchTokens.length with hn
  -- shared facts about the decoy ids versus the real ids
  have hidfree : ∀ (mk : Nat → Preference), (∀ j, (mk j).id = idGen j) →
      ∀ i, idGen (n + i) ∉ ((List.range n).map mk).map (fun p => p.id) := by
    intro mk hmk i hmem
    simp only [List.map_map, List.mem_map, List.mem_range, Function.comp] at hmem
    obtain ⟨j, hj, hje⟩ := hmem
    rw [hmk j] at hje
    have := hinj hje
    omega
  rcases heff with heff | heff | heff
  · -- commit path
    have hres : submitPreferences s req now rc decoyGen idGen
        = (.ok ⟨true, ((List.range n).map (mkCommitPref req now idGen)).map (fun p => p.id),
            .commit⟩,
          { updatePoolStatusStore s req.poolId now with
            preferences := (updatePoolStatusStore s req.poolId now).preferences
              ++ (List.range n).map (mkCommitPref req now idGen)
              ++ (List.range (decoyCount rc)).map (mkCommitDecoy req now idGen decoyGen) }) := by
      unfold submitPreferences
      rw [hpool]
      simp [hval, heff, handleCommitSubmission]
    refine ⟨_, _, hres, (List.range n).map (mkCommitPref req now idGen),
      (List.range (decoyCount rc)).map (mkCommitDecoy req now idGen decoyGen),
      by simp [hprefs], by simp, by simpa using hb.1, by simpa using hb.2, rfl, ?_, ?_⟩
    · intro d hd
      simp only [List.mem_map, List.mem_range] at hd
      obtain ⟨i, hi, rfl⟩ := hd
      refine ⟨rfl, hgen i, ?_⟩
      exact hidfree (mkCommitPref req now idGen) (fun j => rfl) i
    · intro _ d hd
      simp only [List.mem_map, List.mem_range] at hd
      obtain ⟨i, hi, rfl⟩ := hd
      exact ⟨commitToken (decoyGen i), rfl, verifyCommitment_commitToken _⟩
  · -- open path (direct submission)
    have hres : submitPreferences s req now rc decoyGen idGen
        = (.ok ⟨true, ((List.range n).map (mkDirectPref req now idGen)).map (fun p => p.id),
            .reveal⟩,
          { updatePoolStatusStore s req.poolId now with
            preferences := (updatePoolStatusStore s req.poolId now).preferences
              ++ (List.range n).map (mkDirectPref req now idGen)
              ++ (List.range (decoyCount rc)).map (mkDirectDecoy req now idGen decoyGen) }) := by
      unfold submitPreferences
      rw [hpool]
      simp [hval, heff, handleDirectSubmission]
    refine ⟨_, _, hres, (List.range n).map (mkDirectPref req now idGen),
      (List.range (decoyCount rc)).map (mkDirectDecoy req now idGen decoyGen),
      by simp [hprefs], by simp, by simpa using hb.1, by simpa using hb.2, rfl, ?_, ?_⟩
    · intro d hd
      simp only [List.mem_map, List.mem_range] at hd
      obtain ⟨i, hi, rfl⟩ := hd
      refine ⟨rfl, hgen i, ?_⟩
      exact hidfree (mkDirectPref req now idGen) (fun j => rfl) i
    · intro hcommit
      rw [heff] at hcommit
      exact absurd hcommit (by decide)
  · -- reveal path (direct submission)
    have hres : submitPreferences s req now rc decoyGen idGen
        = (.ok ⟨true, ((List.range n).map (mkDirectPref req now idGen)).map (fun p => p.id),
            .reveal⟩,
          { updatePoolStatusStore s req.poolId now with
            preferences := (updatePoolStatusStore s req.poolId now).preferences
              ++ (List.range n).map (mkDirectPref req now idGen)
              ++ (List.range (decoyCount rc)).map (mkDirectDecoy req now idGen decoyGen) }) := by
      unfold submitPreferences
      rw [hpool]
      simp [hval, heff, handleDirectSubmission]
    refine ⟨_, _, hres, (List.range n).map (mkDirectPref req now idGen),
      (List.range (decoyCount rc)).map (mkDirectDecoy req now idGen decoyGen),
      by simp [hprefs], by simp, by simpa using hb.1, by simpa using hb.2, rfl, ?_, ?_⟩
    · intro d hd
      simp only [List.mem_map, List.mem_range] at hd
      obtain ⟨i, hi, rfl⟩ := hd
      refine ⟨rfl, hgen i, ?_⟩
      exact hidfree (mkDirectPref req now idGen) (fun j => rfl) i
    · intro hcommit
      rw [heff] at hcommit
      exact absurd hcommit (by decide)

/-- Deterministic id oracle used by the witnesses: distinct indices give
distinct ids. -/
def natRepId (i : Nat) : String :=
  String.mk (List.replicate i 'i')

theorem natRepId_injective : Function.Injective natRepId := by
  intro a b h
  have hd : (List.replicate a 'i') = (List.replicate b 'i') := by
    have := congrArg String.data h
    simpa [natRepId] using this
  have := congrArg List.length hd
  simpa using this

/-- Witness for C5: a direct submission of one valid 32-byte token to an
open pool, with the decoy oracle returning 32-byte tokens. -/
theorem submitPreferences_decoy_padding_witness :
    ∃ res s', submitPreferences
        ⟨[⟨"pool1", "Pool", none, 100, none, .open'⟩], [], []⟩
        ⟨"pool1", [List.replicate 32 7], none, "n1", none, none⟩ 10 0
        (fun i => List.replicate 32 (i + 1)) natRepId = (.ok res, s')
      ∧ ∃ realPrefs decoyPrefs : List Preference,
        s'.preferences = [] ++ realPrefs ++ decoyPrefs
        ∧ realPrefs.length = 1
        ∧ 3 ≤ decoyPrefs.length ∧ decoyPrefs.length ≤ 8
        ∧ res.preferenceIds = realPrefs.map (fun p => p.id)
        ∧ (∀ d ∈ decoyPrefs, d.nullifier = "n1" ∧ d.matchToken.length = 32
            ∧ d.id ∉ res.preferenceIds)
        ∧ (getEffectiveStatus ⟨"pool1", "Pool", none, 100, none, .open'⟩ 10 = .commit →
            ∀ d ∈ decoyPrefs, ∃ c, d.commitHash = some c
              ∧ verifyCommitment d.matchToken c = true) :=
  submitPreferences_decoy_padding _ _ 10 0 _ natRepId
    ⟨"pool1", "Pool", none, 100, none, .open'⟩ (by decide) (by decide)
    (by decide) (fun i => by simp) natRepId_injective

/-! ## Match detector (`match.ts`) -/

/-- Lexicographic order on byte strings (model of JavaScript's default
string sort used by `matchedTokens.sort()`). -/
def bytesLe : Bytes → Bytes → Bool
  | [], _ => true
  | _ :: _, [] => false
  | a :: as, b :: bs => if a < b then true else if b < a then false else bytesLe as bs

/-- Insertion step for `sortBytes`. -/
def insBytes (t : Bytes) : List Bytes → List Bytes
  | [] => [t]
  | u :: us => if bytesLe t u then t :: u :: us else u :: insBytes t us

/-- `matchedTokens.sort()` in `computeMatchDataHash`. -/
def sortBytes (l : List Bytes) : List Bytes :=
  l.foldr insBytes []

/-- `MatchDetector.computeMatchDataHash`: the deterministic hash of
(pool id, sorted matched tokens, participant count, protocol version)
submitted for witness attestation. -/
def computeMatchDataHash (poolId : String) (matchedTokens : List Bytes)
    (participantCount : Nat) : Bytes :=
  sha256model (strBytes poolId ++ (sortBytes matchedTokens).flatten
    ++ natBytes participantCount ++ strBytes "rendezvous-v1")

/-- The fresh result computed by `MatchDetector.detectMatches` when no
stored result exists: count occurrences, keep the tokens counted
exactly twice, record totals and participants, attach the attestation
when an adapter is configured. -/
def detectFreshResult (s1 : Store) (poolId : String) (now : Nat) (hasWitness : Bool) :
    MatchResult :=
  let tokenCounts := s1.countTokenOccurrences poolId
  let matchedTokens := (tokenCounts.filter (fun kv => kv.2 = 2)).map Prod.fst
  let prefs := s1.getPreferencesByPoolId poolId
  let uniqueParticipants := (prefs.map (fun p => p.nullifier)).dedup.length
  let witnessProof := if hasWitness
    then some ⟨computeMatchDataHash poolId matchedTokens uniqueParticipants⟩
    else none
  ⟨poolId, matchedTokens, (prefs.filter (fun p => p.revealed)).length,
    uniqueParticipants, now, witnessProof⟩

/-- `MatchDetector.detectMatches`.  The returned triple is (result or
error, post-call store, whether the witness adapter was invoked); the
last component instruments the `await this.witness.attest(...)` call.
`hasWitness` says whether an attestation adapter is configured. -/
def detectMatches (s : Store) (poolId : String) (now : Nat) (hasWitness : Bool) :
    Except RendezvousErrorCode MatchResult × Store × Bool :=
  match s.getPool poolId with
  | none => (.error .POOL_NOT_FOUND, s, false)
  | some pool =>
    let s1 := updatePoolStatusStore s poolId now
    if ¬ isClosed pool now then (.error .POOL_CLOSED, s1, false)
    else match s1.getMatchResult poolId with
      | some existing => (.ok existing, s1, false)
      | none =>
        let result := detectFreshResult s1 poolId now hasWitness
        (.ok result, s1.insertMatchResult result, hasWitness)

/-- Number of revealed preferences of the pool carrying a given token:
the direct restatement of "occurrence count among the pool's revealed
preferences" that the detection result is compared against. -/
def revealedTokenCount (s : Store) (poolId : String) (t : Bytes) : Nat :=
  (s.preferences.filter (prefFilter (some poolId) none (some true))).countP
    (fun p => p.matchToken = t)

/-- Lookup in the association list built by the counting loop. -/
def lookupCount (m : List (Bytes × Nat)) (t : Bytes) : Option Nat :=
  (m.find? (fun kv => kv.1 = t)).map Prod.snd

/-- The key set of the counting association list is duplicate-free. -/
def keysNodup (m : List (Bytes × Nat)) : Prop :=
  (m.map Prod.fst).Nodup

theorem find?_map_keyPreserving (f : Bytes × Nat → Bytes × Nat)
    (hf : ∀ kv, (f kv).1 = kv.1) (m : List (Bytes × Nat)) (u : Bytes) :
    (m.map f).find? (fun kv => kv.1 = u) = (m.find? (fun kv => kv.1 = u)).map f := by
  induction m with
  | nil => rfl
  | cons kv rest ih =>
    simp only [List.map_cons, List.find?]
    rw [hf kv]
    by_cases h : kv.1 = u
    · simp [h]
    · simp only [h, decide_False]
      exact ih

theorem find?_append_of_none {α : Type} (p : α → Bool) (l1 l2 : List α)
    (h : l1.find? p = none) : (l1 ++ l2).find? p = l2.find? p := by
  induction l1 with
  | nil => simp
  | cons x xs ih =>
    rw [List.find?_eq_none] at h
    have hx : ¬ p x = true := h x (by simp)
    rw [List.cons_append, List.find?_cons_of_neg _ hx]
    apply ih
    rw [List.find?_eq_none]
    intro a ha
    exact h a (by simp [ha])

theorem find?_append_of_some {α : Type} (p : α → Bool) (l1 l2 : List α) (x : α)
    (h : l1.find? p = some x) : (l1 ++ l2).find? p = some x := by
  induction l1 with
  | nil => simp at h
  | cons y ys ih =>
    by_cases hy : p y = true
    · rw [List.find?_cons_of_pos _ hy] at h
      rw [List.cons_append, List.find?_cons_of_pos _ hy]
      exact h
    · rw [List.find?_cons_of_neg _ hy] at h
      rw [List.cons_append, List.find?_cons_of_neg _ hy]
      exact ih h

theorem bump_preserves_key (t : Bytes) :
    ∀ kv : Bytes × Nat, ((fun kv => if kv.1 = t then (kv.1, kv.2 + 1) else kv) kv).1 = kv.1 := by
  intro kv
  by_cases h : kv.1 = t <;> simp [h]

theorem lookupCount_bumpToken_self (m : List (Bytes × Nat)) (t : Bytes) :
    lookupCount (bumpToken m t) t = some ((lookupCount m t).getD 0 + 1) := by
  unfold bumpToken
  by_cases h : m.any (fun kv => kv.1 = t)
  · rw [if_pos h]
    unfold lookupCount
    rw [find?_map_keyPreserving _ (bump_preserves_key t)]
    cases hf : m.find? (fun kv => kv.1 = t) with
    | none =>
      exfalso
      rw [List.find?_eq_none] at hf
      rw [List.any_eq_true] at h
      obtain ⟨kv0, hkv0, hp⟩ := h
      exact hf kv0 hkv0 hp
    | some kv1 =>
      have hkey : kv1.1 = t := by simpa using List.find?_some hf
      simp [hkey]
  · rw [if_neg h]
    unfold lookupCount
    have hfind : m.find? (fun kv => kv.1 = t) = none := by
      rw [List.find?_eq_none]
      intro kv hkv hp
      rw [List.any_eq_true] at h
      exact h ⟨kv, hkv, hp⟩
    rw [find?_append_of_none _ _ _ hfind, hfind]
    rw [List.find?_cons_of_pos _ (by simp)]
    rfl

theorem lookupCount_bumpToken_ne (m : List (Bytes × Nat)) (t u : Bytes) (h : u ≠ t) :
    lookupCount (bumpToken m t) u = lookupCount m u := by
  unfold bumpToken
  by_cases ha : m.any (fun kv => kv.1 = t)
  · rw [if_pos ha]
    unfold lookupCount
    rw [find?_map_keyPreserving _ (bump_preserves_key t)]
    cases hf : m.find? (fun kv => kv.1 = u) with
    | none => rfl
    | some kv =>
      have hkey : kv.1 = u := by simpa using List.find?_some hf
      have hne : ¬ (kv.1 = t) := by
        rw [hkey]
        exact h
      simp [hne]
  · rw [if_neg ha]
    unfold lookupCount
    cases hf : m.find? (fun kv => kv.1 = u) with
    | none =>
      rw [find?_append_of_none _ _ _ hf]
      rw [List.find?_cons_of_neg _ (by simpa using fun he => h he.symm)]
      simp
    | some kv =>
      rw [find?_append_of_some _ _ _ _ hf]

theorem keysNodup_bumpToken (m : List (Bytes × Nat)) (t : Bytes) (h : keysNodup m) :
    keysNodup (bumpToken m t) := by
  unfold bumpToken keysNodup
  by_cases ha : m.any (fun kv => kv.1 = t)
  · rw [if_pos ha]
    have : (m.map (fun kv => if kv.1 = t then (kv.1, kv.2 + 1) else kv)).map Prod.fst
        = m.map Prod.fst := by
      rw [List.map_map]
      apply List.map_congr_left
      intro kv _
      exact bump_preserves_key t kv
    rw [this]
    exact h
  · rw [if_neg ha]
    rw [List.map_append]
    simp only [List.map_cons, List.map_nil]
    rw [List.nodup_append]
    refine ⟨h, List.nodup_singleton t, ?_⟩
    intro k hk
    simp only [List.mem_singleton]
    intro hkt
    subst hkt
    rw [List.mem_map] at hk
    obtain ⟨kv, hkv, hkvk⟩ := hk
    rw [List.any_eq_true] at ha
    exact ha ⟨kv, hkv, by simpa using hkvk⟩

theorem keysNodup_foldl_bump (l : List Preference) (m : List (Bytes × Nat))
    (h : keysNodup m) :
    keysNodup (l.foldl (fun acc p => bumpToken acc p.matchToken) m) := by
  induction l generalizing m with
  | nil => exact h
  | cons p rest ih =>
    simp only [List.foldl_cons]
    exact ih _ (keysNodup_bumpToken m p.matchToken h)

theorem lookupCount_foldl_bump (l : List Preference) (m : List (Bytes × Nat)) (t : Bytes) :
    lookupCount (l.foldl (fun acc p => bumpToken acc p.matchToken) m) t
      = if lookupCount m t = none ∧ l.countP (fun p => p.matchToken = t) = 0
        then none
        else some ((lookupCount m t).getD 0 + l.countP (fun p => p.matchToken = t)) := by
  induction l generalizing m with
  | nil =>
    cases h : lookupCount m t with
    | none => simp [h]
    | some c => simp [h]
  | cons p rest ih =>
    simp only [List.foldl_cons, List.countP_cons]
    by_cases hp : p.matchToken = t
    · rw [ih (bumpToken m p.matchToken), hp, lookupCount_bumpToken_self]
      cases hl : lookupCount m t with
      | none =>
        simp
        omega
      | some c =>
        simp
        omega
    · rw [ih (bumpToken m p.matchToken),
        lookupCount_bumpToken_ne m p.matchToken t (fun he => hp he.symm)]
      simp [hp]

theorem mem_iff_lookupCount (m : List (Bytes × Nat)) (hnd : keysNodup m) (t : Bytes) (c : Nat) :
    (t, c) ∈ m ↔ lookupCount m t = some c := by
  induction m with
  | nil => simp [lookupCount]
  | cons kv rest ih =>
    unfold keysNodup at hnd
    simp only [List.map_cons, List.nodup_cons] at hnd
    unfold lookupCount
    by_cases hk : kv.1 = t
    · rw [List.find?_cons_of_pos _ (by simpa using hk)]
      simp only [Option.map_some', Option.some.injEq, List.mem_cons]
      constructor
      · rintro (heq | hmem)
        · rw [← heq]
        · exfalso
          apply hnd.1
          rw [List.mem_map]
          rw [← hk] at hmem
          exact ⟨(kv.1, c), hmem, rfl⟩
      · intro hc
        left
        rw [← hk, ← hc]
    · rw [List.find?_cons_of_neg _ (by simpa using hk)]
      show (t, c) ∈ kv :: rest ↔ lookupCount rest t = some c
      rw [← ih hnd.2, List.mem_cons]
      constructor
      · rintro (heq | hmem)
        · exfalso
          apply hk
          rw [← heq]
        · exact hmem
      · intro hmem
        right
        exact hmem

theorem find?_replace (l : List MatchResult) (r : MatchResult)
    (ha : ∃ m ∈ l, m.poolId = r.poolId) :
    (l.map (fun m => if m.poolId = r.poolId then r else m)).find?
      (fun m => m.poolId = r.poolId) = some r := by
  induction l with
  | nil => simp at ha
  | cons m0 rest ih =>
    simp only [List.map_cons]
    by_cases h0 : m0.poolId = r.poolId
    · rw [if_pos h0]
      rw [List.find?_cons_of_pos _ (by simp)]
    · rw [if_neg h0]
      rw [List.find?_cons_of_neg _ (by simpa using h0)]
      apply ih
      obtain ⟨m1, hm1, hp1⟩ := ha
      rcases List.mem_cons.mp hm1 with rfl | hm1
      · exact absurd hp1 h0
      · exact ⟨m1, hm1, hp1⟩

theorem getMatchResult_insert_self (s : Store) (r : MatchResult) :
    (s.insertMatchResult r).getMatchResult r.poolId = some r := by
  unfold Store.insertMatchResult Store.getMatchResult
  by_cases ha : s.matchResults.any (fun m => m.poolId = r.poolId)
  · rw [if_pos ha]
    apply find?_replace
    rw [List.any_eq_true] at ha
    obtain ⟨m, hm, hp⟩ := ha
    exact ⟨m, hm, by simpa using hp⟩
  · rw [if_neg ha]
    simp only
    have hfind : s.matchResults.find? (fun m => m.poolId = r.poolId) = none := by
      rw [List.find?_eq_none]
      intro m hm hp
      rw [List.any_eq_true] at ha
      exact ha ⟨m, hm, hp⟩
    rw [find?_append_of_none _ _ _ hfind]
    rw [List.find?_cons_of_pos _ (by simp)]

theorem insertMatchResult_keys_nodup (s : Store) (r : MatchResult)
    (hnd : (s.matchResults.map (fun m => m.poolId)).Nodup) :
    ((s.insertMatchResult r).matchResults.map (fun m => m.poolId)).Nodup := by
  unfold Store.insertMatchResult
  by_cases ha : s.matchResults.any (fun m => m.poolId = r.poolId)
  · rw [if_pos ha]
    simp only
    have hkeys : (s.matchResults.map (fun m => if m.poolId = r.poolId then r else m)).map
        (fun m => m.poolId) = s.matchResults.map (fun m => m.poolId) := by
      rw [List.map_map]
      apply List.map_congr_left
      intro m _
      simp only [Function.comp]
      by_cases h0 : m.poolId = r.poolId
      · rw [if_pos h0, h0]
      · rw [if_neg h0]
    rw [hkeys]
    exact hnd
  · rw [if_neg ha]
    simp only [List.map_append, List.map_cons, List.map_nil]
    rw [List.nodup_append]
    refine ⟨hnd, List.nodup_singleton _, ?_⟩
    intro k hk
    simp only [List.mem_singleton]
    intro hkr
    subst hkr
    rw [List.mem_map] at hk
    obtain ⟨m, hm, hmp⟩ := hk
    rw [List.any_eq_true] at ha
    exact ha ⟨m, hm, by simpa using hmp⟩

theorem updatePoolStatusStore_getMatchResult (s : Store) (pid pid' : String) (now : Nat) :
    (updatePoolStatusStore s pid now).getMatchResult pid' = s.getMatchResult pid' := by
  unfold Store.getMatchResult
  rw [updatePoolStatusStore_matchResults]

theorem detectMatches_fresh (s : Store) (pid : String) (now : Nat) (hw : Bool) (pool : Pool)
    (hpool : s.getPool pid = some pool)
    (hclosed : getEffectiveStatus pool now = .closed)
    (hnores : s.getMatchResult pid = none) :
    detectMatches s pid now hw
      = (.ok (detectFreshResult (updatePoolStatusStore s pid now) pid now hw),
         (updatePoolStatusStore s pid now).insertMatchResult
           (detectFreshResult (updatePoolStatusStore s pid now) pid now hw),
         hw) := by
  have hm1 : (updatePoolStatusStore s pid now).getMatchResult pid = none := by
    rw [updatePoolStatusStore_getMatchResult]
    exact hnores
  have hcl : isClosed pool now = true := by
    unfold isClosed
    rw [hclosed]
    rfl
  unfold detectMatches
  rw [hpool]
  simp only [hcl, hm1, not_true_eq_false, if_false]

theorem detectFreshResult_matchedTokens (s1 : Store) (pid : String) (now : Nat) (hw : Bool) :
    (detectFreshResult s1 pid now hw).matchedTokens
      = ((s1.countTokenOccurrences pid).filter (fun kv => kv.2 = 2)).map Prod.fst := rfl

/-- Claim C2: on a closed pool with no stored result, `detectMatches`
returns and stores a result whose matched-token list holds exactly the
tokens whose occurrence count among the pool's revealed preferences is
2 — counts of 1 or of 3 and more are excluded. -/
theorem detectMatches_matched_iff_count_two (s : Store) (pid : String) (now : Nat) (hw : Bool)
    (pool : Pool)
    (hpool : s.getPool pid = some pool)
    (hclosed : getEffectiveStatus pool now = .closed)
    (hnores : s.getMatchResult pid = none) :
    ∃ r s', detectMatches s pid now hw = (.ok r, s', hw)
      ∧ (∀ t, t ∈ r.matchedTokens ↔ revealedTokenCount s pid t = 2)
      ∧ s'.getMatchResult pid = some r := by
  have hprefs1 : (updatePoolStatusStore s pid now).preferences = s.preferences :=
    updatePoolStatusStore_preferences s pid now
  refine ⟨detectFreshResult (updatePoolStatusStore s pid now) pid now hw,
    (updatePoolStatusStore s pid now).insertMatchResult
      (detectFreshResult (updatePoolStatusStore s pid now) pid now hw),
    detectMatches_fresh s pid now hw pool hpool hclosed hnores, ?_, ?_⟩
  · intro t
    rw [detectFreshResult_matchedTokens]
    have hnd : keysNodup ((updatePoolStatusStore s pid now).countTokenOccurrences pid) := by
      unfold Store.countTokenOccurrences
      apply keysNodup_foldl_bump
      unfold keysNodup
      simp
    have hlc : lookupCount ((updatePoolStatusStore s pid now).countTokenOccurrences pid) t
        = if revealedTokenCount s pid t = 0 then none
          else some (revealedTokenCount s pid t) := by
      unfold Store.countTokenOccurrences
      rw [lookupCount_foldl_bump]
      have hcnt : ((updatePoolStatusStore s pid now).getPreferences (some pid) none
          (some true)).countP (fun p => p.matchToken = t) = revealedTokenCount s pid t := by
        unfold Store.getPreferences
        rw [countP_sortByTime]
        unfold revealedTokenCount
        rw [hprefs1]
      rw [hcnt]
      simp only [lookupCount, List.find?_nil, Option.map_none', Option.getD_none, true_and,
        Nat.zero_add]
    constructor
    · intro ht
      simp only [List.mem_map] at ht
      obtain ⟨kv, hkv, hkvt⟩ := ht
      rw [List.mem_filter] at hkv
      have hkv2 : kv.2 = 2 := by simpa using hkv.2
      have hkveq : kv = (t, 2) := by
        rw [← hkvt, ← hkv2]
      have hmem : (t, 2) ∈ (updatePoolStatusStore s pid now).countTokenOccurrences pid := by
        rw [← hkveq]
        exact hkv.1
      rw [mem_iff_lookupCount _ hnd] at hmem
      rw [hlc] at hmem
      by_cases hz : revealedTokenCount s pid t = 0
      · rw [if_pos hz] at hmem
        exact absurd hmem (by simp)
      · rw [if_neg hz] at hmem
        simpa using hmem
    · intro ht
      have hmem : (t, 2) ∈ (updatePoolStatusStore s pid now).countTokenOccurrences pid := by
        rw [mem_iff_lookupCount _ hnd, hlc, ht]
        simp
      simp only [List.mem_map]
      refine ⟨(t, 2), ?_, rfl⟩
      rw [List.mem_filter]
      exact ⟨hmem, by simp⟩
  · exact getMatchResult_insert_self (updatePoolStatusStore s pid now)
      (detectFreshResult (updatePoolStatusStore s pid now) pid now hw)

/-- Witness for C2: a closed pool whose revealed preferences hold the
token `[1]` twice (a mutual match), `[2]` once (unilateral) and `[3]`
three times (anomalous); only `[1]` is matched. -/
theorem detectMatches_matched_iff_count_two_witness :
    ∃ r s', detectMatches
        ⟨[⟨"pool1", "Pool", none, 100, none, .closed⟩],
         [⟨"a", "pool1", [1], none, true, 1, "nA", none⟩,
          ⟨"b", "pool1", [1], none, true, 2, "nB", none⟩,
          ⟨"c", "pool1", [2], none, true, 3, "nC", none⟩,
          ⟨"d", "pool1", [3], none, true, 4, "nD", none⟩,
          ⟨"e", "pool1", [3], none, true, 5, "nE", none⟩,
          ⟨"f", "pool1", [3], none, true, 6, "nF", none⟩], []⟩
        "pool1" 200 false = (.ok r, s', false)
      ∧ (∀ t, t ∈ r.matchedTokens ↔ revealedTokenCount
          ⟨[⟨"pool1", "Pool", none, 100, none, .closed⟩],
           [⟨"a", "pool1", [1], none, true, 1, "nA", none⟩,
            ⟨"b", "pool1", [1], none, true, 2, "nB", none⟩,
            ⟨"c", "pool1", [2], none, true, 3, "nC", none⟩,
            ⟨"d", "pool1", [3], none, true, 4, "nD", none⟩,
            ⟨"e", "pool1", [3], none, true, 5, "nE", none⟩,
            ⟨"f", "pool1", [3], none, true, 6, "nF", none⟩], []⟩ "pool1" t = 2)
      ∧ s'.getMatchResult "pool1" = some r :=
  detectMatches_matched_iff_count_two _ "pool1" 200 false
    ⟨"pool1", "Pool", none, 100, none, .closed⟩ (by decide) (by decide) (by decide)

/-- Claim C7: `detectMatches` on a closed pool that already has a stored
result returns that result unchanged — no recount is stored and the
attestation adapter is not invoked (third component `false`) — and
`insertMatchResult` upserts keyed on the pool id, preserving at most one
result per pool. -/
theorem detectMatches_idempotent (s : Store) (pid : String) (now : Nat) (hw : Bool)
    (pool : Pool) (r : MatchResult) (s2 : Store) (r2 : MatchResult)
    (hpool : s.getPool pid = some pool)
    (hclosed : getEffectiveStatus pool now = .closed)
    (hres : s.getMatchResult pid = some r)
    (hnd : (s2.matchResults.map (fun m => m.poolId)).Nodup) :
    (∃ s', detectMatches s pid now hw = (.ok r, s', false)
      ∧ s'.preferences = s.preferences ∧ s'.matchResults = s.matchResults)
    ∧ (s2.insertMatchResult r2).getMatchResult r2.poolId = some r2
    ∧ ((s2.insertMatchResult r2).matchResults.map (fun m => m.poolId)).Nodup := by
  refine ⟨⟨updatePoolStatusStore s pid now, ?_,
      updatePoolStatusStore_preferences s pid now,
      updatePoolStatusStore_matchResults s pid now⟩,
    getMatchResult_insert_self s2 r2,
    insertMatchResult_keys_nodup s2 r2 hnd⟩
  have hcl : isClosed pool now = true := by
    unfold isClosed
    rw [hclosed]
    rfl
  have hm1 : (updatePoolStatusStore s pid now).getMatchResult pid = some r := by
    rw [updatePoolStatusStore_getMatchResult]
    exact hres
  unfold detectMatches
  rw [hpool]
  simp only [hcl, hm1, not_true_eq_false, if_false]

/-- Witness for C7: a closed pool with a stored (empty) match result; a
repeated detection returns it without attestation, and the upsert
properties hold at a concrete store and result. -/
theorem detectMatches_idempotent_witness :
    (∃ s', detectMatches
        ⟨[⟨"pool1", "Pool", none, 100, none, .closed⟩],
         [⟨"a", "pool1", [1], none, true, 1, "nA", none⟩],
         [⟨"pool1", [], 1, 1, 150, none⟩]⟩
        "pool1" 200 true = (.ok ⟨"pool1", [], 1, 1, 150, none⟩, s', false)
      ∧ s'.preferences = [⟨"a", "pool1", [1], none, true, 1, "nA", none⟩]
      ∧ s'.matchResults = [⟨"pool1", [], 1, 1, 150, none⟩])
    ∧ ((⟨[], [], [⟨"poolX", [], 0, 0, 7, none⟩]⟩ : Store).insertMatchResult
        ⟨"poolX", [[5]], 2, 2, 9, none⟩).getMatchResult "poolX"
        = some ⟨"poolX", [[5]], 2, 2, 9, none⟩
    ∧ (((⟨[], [], [⟨"poolX", [], 0, 0, 7, none⟩]⟩ : Store).insertMatchResult
        ⟨"poolX", [[5]], 2, 2, 9, none⟩).matchResults.map (fun m => m.poolId)).Nodup :=
  detectMatches_idempotent _ "pool1" 200 true
    ⟨"pool1", "Pool", none, 100, none, .closed⟩ ⟨"pool1", [], 1, 1, 150, none⟩
    ⟨[], [], [⟨"poolX", [], 0, 0, 7, none⟩]⟩ ⟨"poolX", [[5]], 2, 2, 9, none⟩
    (by decide) (by decide) (by decide) (by decide)

/-- A discovered mutual match (`DiscoveredMatch` in `types.ts`). -/
structure DiscoveredMatch where
  matchedPublicKey : Nat
  matchToken : Bytes
  poolId : String
deriving DecidableEq, Repr

/-- `MatchDetector.discoverMyMatches`: recompute the would-be token for
each candidate locally and keep those present in the published
matched-token list.  Reads nothing but the stored match result. -/
def discoverMyMatches (s : Store) (poolId : String) (myPrivateKey : Nat)
    (selectedPublicKeys : List Nat) : Except RendezvousErrorCode (List DiscoveredMatch) :=
  match s.getMatchResult poolId with
  | none => .error .POOL_NOT_FOUND
  | some result =>
    .ok (selectedPublicKeys.filterMap (fun pk =>
      let token := deriveMatchToken myPrivateKey pk poolId
      if token ∈ result.matchedTokens then some ⟨pk, token, poolId⟩ else none))

/-- Claim C8: with a stored match result, `discoverMyMatches` returns
exactly the candidates whose derived token appears in the result's
matched-token list, each paired with that token; and the output depends
only on the published match result (two stores agreeing on the result
produce the same output). -/
theorem discoverMyMatches_sound (s s2 : Store) (pid : String) (sk : Nat)
    (cands : List Nat) (r : MatchResult)
    (hres : s.getMatchResult pid = some r) :
    ∃ l, discoverMyMatches s pid sk cands = .ok l
      ∧ (∀ pk t, (⟨pk, t, pid⟩ : DiscoveredMatch) ∈ l
          ↔ pk ∈ cands ∧ t = deriveMatchToken sk pk pid ∧ t ∈ r.matchedTokens)
      ∧ (s2.getMatchResult pid = some r →
          discoverMyMatches s2 pid sk cands = discoverMyMatches s pid sk cands) := by
  refine ⟨cands.filterMap (fun pk =>
      if deriveMatchToken sk pk pid ∈ r.matchedTokens
      then some ⟨pk, deriveMatchToken sk pk pid, pid⟩ else none), ?_, ?_, ?_⟩
  · unfold discoverMyMatches
    rw [hres]
  · intro pk t
    rw [List.mem_filterMap]
    constructor
    · rintro ⟨a, ha, hfa⟩
      have hfa' : (if deriveMatchToken sk a pid ∈ r.matchedTokens
          then some (⟨a, deriveMatchToken sk a pid, pid⟩ : DiscoveredMatch) else none)
          = some (⟨pk, t, pid⟩ : DiscoveredMatch) := hfa
      by_cases hc : deriveMatchToken sk a pid ∈ r.matchedTokens
      · rw [if_pos hc] at hfa'
        have h1 : a = pk ∧ deriveMatchToken sk a pid = t := by
          have := Option.some.inj hfa'
          exact ⟨congrArg DiscoveredMatch.matchedPublicKey this,
            congrArg DiscoveredMatch.matchToken this⟩
        obtain ⟨rfl, h2⟩ := h1
        exact ⟨ha, h2.symm, h2 ▸ hc⟩
      · rw [if_neg hc] at hfa'
        exact absurd hfa' (by simp)
    · rintro ⟨hpk, rfl, hmem⟩
      refine ⟨pk, hpk, ?_⟩
      show (if deriveMatchToken sk pk pid ∈ r.matchedTokens
          then some (⟨pk, deriveMatchToken sk pk pid, pid⟩ : DiscoveredMatch) else none)
          = some (⟨pk, deriveMatchToken sk pk pid, pid⟩ : DiscoveredMatch)
      rw [if_pos hmem]
  · intro hres2
    unfold discoverMyMatches
    rw [hres, hres2]

/-- Witness for C8: two candidates 5 and 6 under private scalar 3; only
candidate 5's derived token is in the published matched list, so only 5
is discovered. -/
theorem discoverMyMatches_sound_witness :
    ∃ l, discoverMyMatches
        ⟨[], [], [⟨"p", [deriveMatchToken 3 5 "p"], 1, 2, 9, none⟩]⟩ "p" 3 [5, 6] = .ok l
      ∧ (∀ pk t, (⟨pk, t, "p"⟩ : DiscoveredMatch) ∈ l
          ↔ pk ∈ [5, 6] ∧ t = deriveMatchToken 3 pk "p"
            ∧ t ∈ [deriveMatchToken 3 5 "p"])
      ∧ ((⟨[], [⟨"x", "p", [7], none, true, 0, "n", none⟩],
            [⟨"p", [deriveMatchToken 3 5 "p"], 1, 2, 9, none⟩]⟩ : Store).getMatchResult "p"
            = some ⟨"p", [deriveMatchToken 3 5 "p"], 1, 2, 9, none⟩ →
          discoverMyMatches
            ⟨[], [⟨"x", "p", [7], none, true, 0, "n", none⟩],
             [⟨"p", [deriveMatchToken 3 5 "p"], 1, 2, 9, none⟩]⟩ "p" 3 [5, 6]
            = discoverMyMatches
              ⟨[], [], [⟨"p", [deriveMatchToken 3 5 "p"], 1, 2, 9, none⟩]⟩ "p" 3 [5, 6]) :=
  discoverMyMatches_sound
    ⟨[], [], [⟨"p", [deriveMatchToken 3 5 "p"], 1, 2, 9, none⟩]⟩
    ⟨[], [⟨"x", "p", [7], none, true, 0, "n", none⟩],
     [⟨"p", [deriveMatchToken 3 5 "p"], 1, 2, 9, none⟩]⟩
    "p" 3 [5, 6] ⟨"p", [deriveMatchToken 3 5 "p"], 1, 2, 9, none⟩ rfl

/-! ## Eligibility gates (`gates/index.ts`) -/

/-- Operator of a composite gate. -/
inductive GateOp where
  | and
  | or
deriving DecidableEq, Repr

/-- `VoterGate` as a sum type: open, invite-list, Freebird
(unlinkable-token) and composite gates. -/
inductive VoterGate where
  | openGate
  | inviteList (allowedKeys : List Nat)
  | freebird (issuerId : String)
  | composite (op : GateOp) (gates : List VoterGate)

/-- `FreebirdProof` (token value, issuer, expiration). -/
structure FreebirdProof where
  tokenValue : String
  issuerId : String
  expiration : Nat
deriving DecidableEq, Repr

/-- `GateContext` from `gates/types.ts`. -/
structure GateContext where
  participantKey : Option Nat
  freebirdProof : Option FreebirdProof
  poolId : String
deriving DecidableEq, Repr

/-- `GateResult` from `gates/types.ts` (details dropped). -/
structure GateResult where
  eligible : Bool
  reason : String
deriving DecidableEq, Repr

/-- A Freebird adapter: `verify` may return a boolean or throw (modelled
by `Except`, `.error` standing for a rejected promise); `isExpired` is
synchronous and total. -/
structure FreebirdAdapterModel where
  verify : FreebirdProof → Except String Bool
  isExpired : FreebirdProof → Bool

mutual

/-- `GateSystem.evaluate`: the up-front pre-verification of a supplied
token proof (whose `await adapter.verify` is NOT wrapped in try/catch in
the source, so an adapter error propagates), then dispatch to the
per-gate evaluator. -/
def gateEvaluate (fb : Option FreebirdAdapterModel) (gate : VoterGate) (ctx : GateContext) :
    Except String GateResult :=
  match ctx.freebirdProof, fb with
  | some proof, some adapter =>
    match adapter.verify proof with
    | .error e => .error e
    | .ok valid =>
      if !valid then .ok ⟨false, "Invalid Freebird proof"⟩
      else if adapter.isExpired proof then .ok ⟨false, "Freebird proof expired"⟩
      else evalGateNode fb gate ctx
  | _, _ => evalGateNode fb gate ctx
termination_by 2 * sizeOf gate + 1

/-- The per-gate evaluators (`OpenGateEvaluator`,
`InviteListGateEvaluator`, `FreebirdGateEvaluator`,
`CompositeGateEvaluator`); the Freebird evaluator wraps its own
`adapter.verify` call in try/catch and reports a caught error as
`eligible = false`. -/
def evalGateNode (fb : Option FreebirdAdapterModel) (gate : VoterGate) (ctx : GateContext) :
    Except String GateResult :=
  match gate with
  | .openGate => .ok ⟨true, "Open gate - all participants eligible"⟩
  | .inviteList allowedKeys =>
    match ctx.participantKey with
    | none => .ok ⟨false, "Participant key required for invite-list gate"⟩
    | some k =>
      if k ∈ allowedKeys then .ok ⟨true, "Key found in invite list"⟩
      else .ok ⟨false, "Key not in invite list"⟩
  | .freebird issuerId =>
    match fb with
    | none => .ok ⟨false, "Freebird adapter not configured"⟩
    | some adapter =>
      match ctx.freebirdProof with
      | none => .ok ⟨false, "Freebird token required for this pool"⟩
      | some proof =>
        if proof.issuerId ≠ issuerId then .ok ⟨false, "Token must be from issuer"⟩
        else if adapter.isExpired proof then .ok ⟨false, "Freebird token has expired"⟩
        else match adapter.verify proof with
          | .ok true => .ok ⟨true, "Valid Freebird token"⟩
          | .ok false => .ok ⟨false, "Invalid Freebird token"⟩
          | .error _ => .ok ⟨false, "Freebird verification failed"⟩
  | .composite op gates =>
    if gates.isEmpty then .ok ⟨false, "Composite gate has no sub-gates"⟩
    else evalComposite fb op gates ctx
termination_by 2 * sizeOf gate

/-- The short-circuiting loop of `CompositeGateEvaluator.evaluate`; each
child is evaluated through `GateSystem.evaluate` (so the pre-verification
runs again per node, as in the source). -/
def evalComposite (fb : Option FreebirdAdapterModel) (op : GateOp) (gates : List VoterGate)
    (ctx : GateContext) : Except String GateResult :=
  match gates with
  | [] =>
    match op with
    | .and => .ok ⟨true, "All AND sub-gates passed"⟩
    | .or => .ok ⟨false, "No OR sub-gates passed"⟩
  | g :: rest =>
    match gateEvaluate fb g ctx with
    | .error e => .error e
    | .ok result =>
      match op with
      | .and =>
        if !result.eligible then .ok ⟨false, "AND gate failed: " ++ result.reason⟩
        else evalComposite fb op rest ctx
      | .or =>
        if result.eligible then .ok ⟨true, "OR gate passed: " ++ result.reason⟩
        else evalComposite fb op rest ctx
termination_by 2 * sizeOf gates

end

theorem evalGateNode_freebird_ok (adapter : FreebirdAdapterModel) (issuer : String)
    (ctx : GateContext) :
    ∃ r, evalGateNode (some adapter) (.freebird issuer) ctx = .ok r := by
  rw [evalGateNode.eq_def]
  dsimp only
  cases hp : ctx.freebirdProof with
  | none => exact ⟨_, rfl⟩
  | some proof =>
    dsimp only
    by_cases hi : proof.issuerId ≠ issuer
    · rw [if_pos hi]
      exact ⟨_, rfl⟩
    · rw [if_neg hi]
      by_cases he : adapter.isExpired proof
      · rw [if_pos he]
        exact ⟨_, rfl⟩
      · rw [if_neg he]
        cases hv : adapter.verify proof with
        | error e => exact ⟨_, rfl⟩
        | ok b => cases b <;> exact ⟨_, rfl⟩

theorem evalComposite_ok_of (fb : Option FreebirdAdapterModel) (ctx : GateContext)
    (op : GateOp) (l : List VoterGate)
    (hge : ∀ g ∈ l, ∃ r, gateEvaluate fb g ctx = .ok r) :
    ∃ r, evalComposite fb op l ctx = .ok r := by
  induction l with
  | nil =>
    rw [evalComposite.eq_def]
    cases op <;> exact ⟨_, rfl⟩
  | cons g rest ihl =>
    obtain ⟨r1, hr1⟩ := hge g (by simp)
    have hrest : ∀ g ∈ rest, ∃ r, gateEvaluate fb g ctx = .ok r :=
      fun g hgm => hge g (by simp [hgm])
    rw [evalComposite.eq_def]
    dsimp only
    rw [hr1]
    dsimp only
    cases op <;> cases hel : r1.eligible <;>
      first
        | exact ihl hrest
        | exact ⟨_, rfl⟩

theorem gateEval_ok_aux (n : Nat) :
    ∀ (gate : VoterGate), sizeOf gate ≤ n →
    ∀ (fb : Option FreebirdAdapterModel) (ctx : GateContext),
    (∀ a, fb = some a → ∀ p, ∃ b, a.verify p = .ok b) →
    (∃ r, evalGateNode fb gate ctx = .ok r) ∧ ∃ r, gateEvaluate fb gate ctx = .ok r := by
  induction n with
  | zero =>
    intro gate hg
    exfalso
    cases gate <;> simp at hg
  | succ n ih =>
    intro gate hg fb ctx htot
    have hnode : ∃ r, evalGateNode fb gate ctx = .ok r := by
      cases gate with
      | openGate => exact ⟨_, by rw [evalGateNode.eq_def]⟩
      | inviteList keys =>
        rw [evalGateNode.eq_def]
        dsimp only
        cases ctx.participantKey with
        | none => exact ⟨_, rfl⟩
        | some k =>
          dsimp only
          by_cases hk : k ∈ keys
          · rw [if_pos hk]
            exact ⟨_, rfl⟩
          · rw [if_neg hk]
            exact ⟨_, rfl⟩
      | freebird issuer =>
        cases fb with
        | none => exact ⟨_, by rw [evalGateNode.eq_def]⟩
        | some adapter => exact evalGateNode_freebird_ok adapter issuer ctx
      | composite op gates =>
        rw [evalGateNode.eq_def]
        dsimp only
        by_cases hempty : gates.isEmpty
        · rw [if_pos hempty]
          exact ⟨_, rfl⟩
        · rw [if_neg hempty]
          apply evalComposite_ok_of
          intro g hgmem
          have h1 : sizeOf g < sizeOf gates := List.sizeOf_lt_of_mem hgmem
          have h2 : sizeOf gates < sizeOf (VoterGate.composite op gates) := by
            cases op <;> simp
          exact (ih g (by omega) fb ctx htot).2
    refine ⟨hnode, ?_⟩
    rw [gateEvaluate.eq_def]
    cases hpf : ctx.freebirdProof with
    | none =>
      cases fb with
      | none => exact hnode
      | some adapter => exact hnode
    | some proof =>
      cases fb with
      | none => exact hnode
      | some adapter =>
        dsimp only
        obtain ⟨b, hb⟩ := htot adapter rfl proof
        rw [hb]
        dsimp only
        cases b
        · rw [if_pos (by rfl)]
          exact ⟨_, rfl⟩
        · rw [if_neg (by simp)]
          by_cases he : adapter.isExpired proof
          · rw [if_pos he]
            exact ⟨_, rfl⟩
          · rw [if_neg he]
            exact hnode

/-- Counterexample to claim C9 as stated: an adapter whose `verify`
throws, combined with a context carrying a token proof, makes
`GateSystem.evaluate` rethrow the adapter error — even for an `open`
gate — because the up-front pre-verification does not catch it. -/
theorem gateEvaluate_throws_counterexample :
    gateEvaluate (some ⟨fun _ => .error "network failure", fun _ => false⟩)
      .openGate ⟨none, some ⟨"tok", "issuer1", 1000⟩, "p"⟩
      = .error "network failure" := by
  rw [gateEvaluate.eq_def]

/-- Claim C9 (amended): gate evaluation never throws for an ineligible
outcome provided the configured verifier adapter's `verify` itself
returns (a boolean) rather than throwing: under that hypothesis,
`evaluate` returns an `{eligible, reason}` result for every gate tree
and context.  Moreover the per-gate Freebird evaluator catches a
throwing adapter and reports a result with `eligible = false` instead of
rethrowing; only the up-front pre-verification in `GateSystem.evaluate`
propagates adapter errors. -/
theorem gateEvaluate_no_throw (fb : Option FreebirdAdapterModel) (gate : VoterGate)
    (ctx : GateContext) (adapter : FreebirdAdapterModel) (issuer : String)
    (ctx' : GateContext)
    (htot : ∀ a, fb = some a → ∀ p, ∃ b, a.verify p = .ok b) :
    (∃ r, gateEvaluate fb gate ctx = .ok r)
    ∧ ∃ r, evalGateNode (some adapter) (.freebird issuer) ctx' = .ok r :=
  ⟨(gateEval_ok_aux (sizeOf gate) gate le_rfl fb ctx htot).2,
   evalGateNode_freebird_ok adapter issuer ctx'⟩

/-- Witness for the amended C9: a non-throwing adapter that rejects every
proof, an AND composite over an open and a Freebird gate, and a context
carrying a proof; evaluation returns a result, and the per-gate Freebird
evaluator returns a result even for a throwing adapter. -/
theorem gateEvaluate_no_throw_witness :
    (∃ r, gateEvaluate (some ⟨fun _ => .ok false, fun _ => false⟩)
        (.composite .and [.openGate, .freebird "issuer1"])
        ⟨some 5, some ⟨"tok", "issuer1", 1000⟩, "p"⟩ = .ok r)
    ∧ ∃ r, evalGateNode (some ⟨fun _ => .error "network failure", fun _ => false⟩)
        (.freebird "issuer1") ⟨none, some ⟨"tok", "issuer1", 1000⟩, "p"⟩ = .ok r :=
  gateEvaluate_no_throw (some ⟨fun _ => .ok false, fun _ => false⟩)
    (.composite .and [.openGate, .freebird "issuer1"])
    ⟨some 5, some ⟨"tok", "issuer1", 1000⟩, "p"⟩
    ⟨fun _ => .error "network failure", fun _ => false⟩ "issuer1"
    ⟨none, some ⟨"tok", "issuer1", 1000⟩, "p"⟩
    (by intro a ha p; cases ha; exact ⟨false, rfl⟩)

/-! ## Reveal handling (`SubmissionManager.revealPreferences` / `handleReveal`) -/

/-- `new Set(request.matchTokens)`: deduplicate keeping the first
occurrence, preserving insertion order (JavaScript `Set` iteration
order). -/
def dedupKeepFirst (l : List Bytes) : List Bytes :=
  l.foldl (fun acc t => if t ∈ acc then acc else acc ++ [t]) []

/-- The inner `for (const token of tokenSet)` search in `handleReveal`:
the first available token hashing to the preference's commitment. -/
def findRevealToken (tokens : List Bytes) (pref : Preference) : Option Bytes :=
  match pref.commitHash with
  | none => none
  | some c => tokens.find? (fun t => verifyCommitment t c)

/-- One store write performed by the reveal loop: which preference is
flipped, with which token, and whether a user-supplied token matched
(`true`) or the stored token self-verified (`false`, the decoy path). -/
structure RevealAssignment where
  prefId : String
  token : Bytes
  userMatched : Bool
deriving DecidableEq, Repr

/-- The reveal loop of `handleReveal` over the unrevealed preferences:
match each preference against the remaining user tokens (consuming a
matched token), otherwise auto-reveal a self-verifying stored token;
returns the writes performed and the user tokens left unconsumed. -/
def processReveals : List Preference → List Bytes → List RevealAssignment × List Bytes
  | [], tokens => ([], tokens)
  | pref :: rest, tokens =>
    match findRevealToken tokens pref with
    | some t =>
      let pr := processReveals rest (tokens.erase t)
      (⟨pref.id, t, true⟩ :: pr.1, pr.2)
    | none =>
      match pref.commitHash with
      | some c =>
        if pref.matchToken ≠ [] ∧ verifyCommitment pref.matchToken c = true then
          let pr := processReveals rest tokens
          (⟨pref.id, pref.matchToken, false⟩ :: pr.1, pr.2)
        else processReveals rest tokens
      | none => processReveals rest tokens

/-- Apply the reveal loop's writes to the store in order
(`store.updatePreferenceRevealed` per iteration). -/
def applyAssignments (s : Store) (assigns : List RevealAssignment) : Store :=
  assigns.foldl (fun st a => st.updatePreferenceRevealed a.prefId a.token) s

/-- `SubmissionManager.handleReveal`. -/
def handleReveal (s : Store) (req : RevealPreferencesRequest) :
    Except RendezvousErrorCode RevealResult × Store :=
  let committed := s.getPreferencesByNullifier req.poolId req.nullifier
  if committed.isEmpty then (.error .COMMITMENT_NOT_FOUND, s)
  else
    let unrevealed := committed.filter (fun p => !p.revealed)
    if unrevealed.isEmpty then (.ok ⟨true, 0⟩, s)
    else
      let tokenSet := dedupKeepFirst req.matchTokens
      let pr := processReveals unrevealed tokenSet
      let s' := applyAssignments s pr.1
      if pr.2.length > 0 then (.error .COMMITMENT_MISMATCH, s')
      else (.ok ⟨true, pr.1.length⟩, s')

/-- `SubmissionManager.revealPreferences`: pool lookup, status refresh,
reveal-phase check, then `handleReveal`. -/
def revealPreferences (s : Store) (req : RevealPreferencesRequest) (now : Nat) :
    Except RendezvousErrorCode RevealResult × Store :=
  match s.getPool req.poolId with
  | none => (.error .POOL_NOT_FOUND, s)
  | some pool =>
    let s1 := updatePoolStatusStore s req.poolId now
    match getEffectiveStatus pool now with
    | .reveal => handleReveal s1 req
    | .commit => (.error .POOL_NOT_IN_REVEAL_PHASE, s1)
    | .closed => (.error .POOL_CLOSED, s1)
    | .open' => (.error .POOL_NOT_IN_REVEAL_PHASE, s1)

/-- The user-supplied tokens actually consumed by the reveal loop. -/
def userTokens (assigns : List RevealAssignment) : List Bytes :=
  assigns.filterMap (fun a => if a.userMatched then some a.token else none)

theorem processReveals_assign_sound (prefs : List Preference) (tokens : List Bytes) :
    ∀ a ∈ (processReveals prefs tokens).1,
      ∃ p ∈ prefs, a.prefId = p.id
        ∧ ∃ c, p.commitHash = some c ∧ verifyCommitment a.token c = true
        ∧ (a.userMatched = true → a.token ∈ tokens)
        ∧ (a.userMatched = false → a.token = p.matchToken) := by
  induction prefs generalizing tokens with
  | nil =>
    intro a ha
    simp [processReveals] at ha
  | cons pref rest ih =>
    intro a ha
    unfold processReveals at ha
    cases hf : findRevealToken tokens pref with
    | some t =>
      rw [hf] at ha
      simp only [List.mem_cons] at ha
      rcases ha with rfl | ha
      · -- the head assignment
        unfold findRevealToken at hf
        cases hc : pref.commitHash with
        | none => rw [hc] at hf; exact absurd hf (by simp)
        | some c =>
          rw [hc] at hf
          have hmem := List.mem_of_find?_eq_some hf
          have hver := List.find?_some hf
          exact ⟨pref, by simp, rfl, c, hc, by simpa using hver,
            fun _ => hmem, by simp⟩
      · obtain ⟨p, hp, h1, c, h2, h3, h4, h5⟩ := ih (tokens.erase t) a ha
        exact ⟨p, by simp [hp], h1, c, h2, h3,
          fun hu => List.mem_of_mem_erase (h4 hu), h5⟩
    | none =>
      rw [hf] at ha
      cases hc : pref.commitHash with
      | none =>
        rw [hc] at ha
        dsimp only at ha
        obtain ⟨p, hp, hrest⟩ := ih tokens a ha
        exact ⟨p, by simp [hp], hrest⟩
      | some c =>
        rw [hc] at ha
        dsimp only at ha
        by_cases hv : pref.matchToken ≠ [] ∧ verifyCommitment pref.matchToken c = true
        · rw [if_pos hv] at ha
          simp only [List.mem_cons] at ha
          rcases ha with rfl | ha
          · exact ⟨pref, by simp, rfl, c, hc, by simpa using hv.2,
              by simp, fun _ => rfl⟩
          · obtain ⟨p, hp, hrest⟩ := ih tokens a ha
            exact ⟨p, by simp [hp], hrest⟩
        · rw [if_neg hv] at ha
          obtain ⟨p, hp, hrest⟩ := ih tokens a ha
          exact ⟨p, by simp [hp], hrest⟩

theorem findRevealToken_some_mem (tokens : List Bytes) (pref : Preference) (t : Bytes)
    (hf : findRevealToken tokens pref = some t) :
    t ∈ tokens ∧ ∃ c, pref.commitHash = some c ∧ verifyCommitment t c = true := by
  unfold findRevealToken at hf
  cases hc : pref.commitHash with
  | none =>
    rw [hc] at hf
    exact absurd hf (by simp)
  | some c =>
    rw [hc] at hf
    exact ⟨List.mem_of_find?_eq_some hf, c, rfl, by simpa using List.find?_some hf⟩

theorem processReveals_count (prefs : List Preference) (tokens : List Bytes) (t : Bytes) :
    ((processReveals prefs tokens).2).count t
      + (userTokens (processReveals prefs tokens).1).count t
      = tokens.count t := by
  induction prefs generalizing tokens with
  | nil => simp [processReveals, userTokens]
  | cons pref rest ih =>
    unfold processReveals
    cases hf : findRevealToken tokens pref with
    | some t' =>
      dsimp only
      have hu : userTokens (⟨pref.id, t', true⟩ :: (processReveals rest (tokens.erase t')).1)
          = t' :: userTokens (processReveals rest (tokens.erase t')).1 := by
        simp [userTokens]
      rw [hu]
      have ht'mem : t' ∈ tokens := (findRevealToken_some_mem tokens pref t' hf).1
      by_cases heq : t = t'
      · subst heq
        rw [List.count_cons_self]
        have hrec := ih (tokens.erase t)
        rw [List.count_erase_self] at hrec
        have hpos : 0 < tokens.count t := List.count_pos_iff.mpr ht'mem
        omega
      · rw [List.count_cons_of_ne heq]
        have hrec := ih (tokens.erase t')
        rw [List.count_erase_of_ne heq] at hrec
        omega
    | none =>
      cases hc : pref.commitHash with
      | none =>
        dsimp only
        exact ih tokens
      | some c =>
        dsimp only
        by_cases hv : pref.matchToken ≠ [] ∧ verifyCommitment pref.matchToken c = true
        · rw [if_pos hv]
          have hu : userTokens (⟨pref.id, pref.matchToken, false⟩
              :: (processReveals rest tokens).1)
              = userTokens (processReveals rest tokens).1 := by
            simp [userTokens]
          dsimp only
          rw [hu]
          exact ih tokens
        · rw [if_neg hv]
          exact ih tokens

theorem dedupKeepFirst_count_le_one (l : List Bytes) (t : Bytes) :
    (dedupKeepFirst l).count t ≤ 1 := by
  suffices h : ∀ acc : List Bytes, acc.count t ≤ 1 →
      (l.foldl (fun acc t => if t ∈ acc then acc else acc ++ [t]) acc).count t ≤ 1 by
    exact h [] (by simp)
  induction l with
  | nil =>
    intro acc hacc
    simpa using hacc
  | cons x xs ih =>
    intro acc hacc
    simp only [List.foldl_cons]
    by_cases hx : x ∈ acc
    · rw [if_pos hx]
      exact ih acc hacc
    · rw [if_neg hx]
      apply ih
      rw [List.count_append]
      by_cases hxt : t = x
      · subst hxt
        have hz : acc.count t = 0 := by
          rw [List.count_eq_zero]
          exact hx
        rw [hz]
        simp
      · have hz : ([x] : List Bytes).count t = 0 := by
          rw [List.count_eq_zero]
          simp [hxt]
        omega

/-- Each user-supplied token is consumed at most once: each token of the
deduplicated user token set appears at most once among the tokens
written through the user-matched path. -/
theorem processReveals_userTokens_once (prefs : List Preference) (l : List Bytes)
    (t : Bytes) :
    (userTokens (processReveals prefs (dedupKeepFirst l)).1).count t ≤ 1 := by
  have hcount := processReveals_count prefs (dedupKeepFirst l) t
  have htok := dedupKeepFirst_count_le_one l t
  omega

/-- Every unrevealed preference whose stored token hashes to its own
commitment is revealed by the loop (possibly through a user token). -/
theorem processReveals_self_reveal (prefs : List Preference) (tokens : List Bytes) :
    ∀ p ∈ prefs, p.matchToken ≠ [] →
      (∃ c, p.commitHash = some c ∧ verifyCommitment p.matchToken c = true) →
      ∃ a ∈ (processReveals prefs tokens).1, a.prefId = p.id := by
  induction prefs generalizing tokens with
  | nil =>
    intro p hp
    simp at hp
  | cons pref rest ih =>
    intro p hp hmt hcv
    unfold processReveals
    rcases List.mem_cons.mp hp with rfl | hp
    · cases hf : findRevealToken tokens p with
      | some t' => exact ⟨⟨p.id, t', true⟩, by simp, rfl⟩
      | none =>
        obtain ⟨c, hc, hvc⟩ := hcv
        rw [hc]
        dsimp only
        rw [if_pos ⟨hmt, hvc⟩]
        exact ⟨⟨p.id, p.matchToken, false⟩, by simp, rfl⟩
    · cases hf : findRevealToken tokens pref with
      | some t' =>
        obtain ⟨a, ha, haid⟩ := ih (tokens.erase t') p hp hmt hcv
        exact ⟨a, by simp [ha], haid⟩
      | none =>
        cases hc : pref.commitHash with
        | none =>
          dsimp only
          exact ih tokens p hp hmt hcv
        | some c =>
          dsimp only
          by_cases hv : pref.matchToken ≠ [] ∧ verifyCommitment pref.matchToken c = true
          · rw [if_pos hv]
            obtain ⟨a, ha, haid⟩ := ih tokens p hp hmt hcv
            exact ⟨a, by simp [ha], haid⟩
          · rw [if_neg hv]
            exact ih tokens p hp hmt hcv

/-- A supplied token that matches no unrevealed commitment is never
consumed and ends in the leftover set (which triggers
`COMMITMENT_MISMATCH`). -/
theorem processReveals_unmatched_leftover (prefs : List Preference) (tokens : List Bytes)
    (t : Bytes) (ht : t ∈ tokens)
    (hno : ∀ p ∈ prefs, ∀ c, p.commitHash = some c → verifyCommitment t c = false) :
    t ∈ (processReveals prefs tokens).2 := by
  induction prefs generalizing tokens with
  | nil => simpa [processReveals] using ht
  | cons pref rest ih =>
    unfold processReveals
    cases hf : findRevealToken tokens pref with
    | some t' =>
      dsimp only
      obtain ⟨-, c, hc, hvc⟩ := findRevealToken_some_mem tokens pref t' hf
      have hne : t ≠ t' := by
        intro heq
        subst heq
        rw [hno pref (by simp) c hc] at hvc
        exact absurd hvc (by simp)
      apply ih
      · exact (List.mem_erase_of_ne hne).mpr ht
      · intro p hp c' hc'
        exact hno p (by simp [hp]) c' hc'
    | none =>
      cases hc : pref.commitHash with
      | none =>
        dsimp only
        exact ih tokens ht (fun p hp c' hc' => hno p (by simp [hp]) c' hc')
      | some c =>
        dsimp only
        by_cases hv : pref.matchToken ≠ [] ∧ verifyCommitment pref.matchToken c = true
        · rw [if_pos hv]
          dsimp only
          exact ih tokens ht (fun p hp c' hc' => hno p (by simp [hp]) c' hc')
        · rw [if_neg hv]
          exact ih tokens ht (fun p hp c' hc' => hno p (by simp [hp]) c' hc')

/-- The loop writes each preference at most once: the assigned ids form
a sublist of the processed preferences' ids. -/
theorem processReveals_prefIds_sublist (prefs : List Preference) (tokens : List Bytes) :
    ((processReveals prefs tokens).1.map (fun a => a.prefId)).Sublist
      (prefs.map (fun p => p.id)) := by
  induction prefs generalizing tokens with
  | nil => simp [processReveals]
  | cons pref rest ih =>
    unfold processReveals
    cases hf : findRevealToken tokens pref with
    | some t' =>
      dsimp only
      simp only [List.map_cons]
      exact (ih (tokens.erase t')).cons₂ pref.id
    | none =>
      cases hc : pref.commitHash with
      | none =>
        dsimp only
        simp only [List.map_cons]
        exact (ih tokens).cons pref.id
      | some c =>
        dsimp only
        by_cases hv : pref.matchToken ≠ [] ∧ verifyCommitment pref.matchToken c = true
        · rw [if_pos hv]
          dsimp only
          simp only [List.map_cons]
          exact (ih tokens).cons₂ pref.id
        · rw [if_neg hv]
          simp only [List.map_cons]
          exact (ih tokens).cons pref.id

theorem mem_applyAssignments_of_untouched (s : Store) (assigns : List RevealAssignment)
    (p : Preference) (hp : p ∈ s.preferences)
    (hnot : ∀ a ∈ assigns, a.prefId ≠ p.id) :
    p ∈ (applyAssignments s assigns).preferences := by
  induction assigns generalizing s with
  | nil => exact hp
  | cons a rest ih =>
    apply ih
    · unfold Store.updatePreferenceRevealed
      dsimp only
      have hfix : (fun q => if q.id = a.prefId
          then { q with revealed := true, matchToken := a.token } else q) p = p := by
        dsimp only
        exact if_neg (fun h : p.id = a.prefId => hnot a (by simp) h.symm)
      rw [← hfix]
      exact List.mem_map_of_mem _ hp
    · intro b hb
      exact hnot b (by simp [hb])

theorem applyAssignments_updates (s : Store) (assigns : List RevealAssignment)
    (hnd : (assigns.map (fun a => a.prefId)).Nodup)
    (hex : ∀ a ∈ assigns, ∃ p ∈ s.preferences, p.id = a.prefId) :
    ∀ a ∈ assigns, ∃ p ∈ (applyAssignments s assigns).preferences,
      p.id = a.prefId ∧ p.revealed = true ∧ p.matchToken = a.token := by
  induction assigns generalizing s with
  | nil =>
    intro a ha
    simp at ha
  | cons a0 rest ih =>
    intro a ha
    have hstep : applyAssignments s (a0 :: rest)
        = applyAssignments (s.updatePreferenceRevealed a0.prefId a0.token) rest := rfl
    simp only [List.map_cons, List.nodup_cons] at hnd
    rcases List.mem_cons.mp ha with heq | ha
    · subst heq
      obtain ⟨p, hp, hpid⟩ := hex a (by simp)
      have hp' : ({ p with revealed := true, matchToken := a.token } : Preference)
          ∈ (s.updatePreferenceRevealed a.prefId a.token).preferences := by
        unfold Store.updatePreferenceRevealed
        dsimp only
        have hfix : (fun q => if q.id = a.prefId
            then { q with revealed := true, matchToken := a.token } else q) p
            = { p with revealed := true, matchToken := a.token } := by
          dsimp only
          rw [if_pos hpid]
        rw [← hfix]
        exact List.mem_map_of_mem _ hp
      rw [hstep]
      refine ⟨{ p with revealed := true, matchToken := a.token },
        mem_applyAssignments_of_untouched _ rest _ hp' ?_, by simpa using hpid, rfl, rfl⟩
      intro b hb hbid
      apply hnd.1
      rw [List.mem_map]
      refine ⟨b, hb, ?_⟩
      rw [hbid]
      simpa using hpid
    · rw [hstep]
      apply ih
      · exact hnd.2
      · intro b hb
        obtain ⟨p, hp, hpid⟩ := hex b (by simp [hb])
        unfold Store.updatePreferenceRevealed
        dsimp only
        refine ⟨(fun q => if q.id = a0.prefId
            then { q with revealed := true, matchToken := a0.token } else q) p,
          List.mem_map_of_mem _ hp, ?_⟩
        dsimp only
        by_cases h : p.id = a0.prefId
        · rw [if_pos h]
          simpa using hpid
        · rw [if_neg h]
          exact hpid
      · exact ha

theorem mem_unrevealed_mem_store (s : Store) (pid nul : String) (p : Preference)
    (hp : p ∈ (s.getPreferencesByNullifier pid nul).filter (fun q => !q.revealed)) :
    p ∈ s.preferences := by
  rw [List.mem_filter] at hp
  have h1 := hp.1
  unfold Store.getPreferencesByNullifier Store.getPreferences at h1
  rw [mem_sortByTime] at h1
  exact (List.mem_filter.mp h1).1

/-- Claim C6: reveal semantics in effective status `reveal`.  Writing
`unrevealed` for the unrevealed preferences under (pool, nullifier) and
`tokenSet` for the deduplicated user tokens, the call (1) returns
success with the processed count and the partially-updated store, or
`COMMITMENT_MISMATCH` exactly when some supplied tokens were left
unconsumed; (2) every write is justified: a user-matched write uses a
supplied token that hashes to the preference's commitment, a self
write uses the stored token, which hashes to its own commitment;
(3) each supplied token is consumed at most once; (4) every unrevealed
preference whose stored token hashes to its own commitment (a decoy in
particular) is revealed; (5) a supplied token matching no commitment is
left over, forcing the `COMMITMENT_MISMATCH` failure. -/
theorem revealPreferences_semantics (s : Store) (req : RevealPreferencesRequest) (now : Nat)
    (pool : Pool)
    (hpool : s.getPool req.poolId = some pool)
    (heff : getEffectiveStatus pool now = .reveal)
    (hcomm : (updatePoolStatusStore s req.poolId now).getPreferencesByNullifier
      req.poolId req.nullifier ≠ [])
    (hunrev : ((updatePoolStatusStore s req.poolId now).getPreferencesByNullifier
      req.poolId req.nullifier).filter (fun p => !p.revealed) ≠ []) :
    (revealPreferences s req now
      = if (processReveals (((updatePoolStatusStore s req.poolId now).getPreferencesByNullifier
            req.poolId req.nullifier).filter (fun p => !p.revealed))
            (dedupKeepFirst req.matchTokens)).2.length > 0
        then (.error .COMMITMENT_MISMATCH,
          applyAssignments (updatePoolStatusStore s req.poolId now)
            (processReveals (((updatePoolStatusStore s req.poolId now).getPreferencesByNullifier
              req.poolId req.nullifier).filter (fun p => !p.revealed))
              (dedupKeepFirst req.matchTokens)).1)
        else (.ok ⟨true, (processReveals (((updatePoolStatusStore s req.poolId
              now).getPreferencesByNullifier req.poolId req.nullifier).filter
              (fun p => !p.revealed)) (dedupKeepFirst req.matchTokens)).1.length⟩,
          applyAssignments (updatePoolStatusStore s req.poolId now)
            (processReveals (((updatePoolStatusStore s req.poolId now).getPreferencesByNullifier
              req.poolId req.nullifier).filter (fun p => !p.revealed))
              (dedupKeepFirst req.matchTokens)).1))
    ∧ (∀ a ∈ (processReveals (((updatePoolStatusStore s req.poolId now).getPreferencesByNullifier
          req.poolId req.nullifier).filter (fun p => !p.revealed))
          (dedupKeepFirst req.matchTokens)).1,
        ∃ p ∈ ((updatePoolStatusStore s req.poolId now).getPreferencesByNullifier
            req.poolId req.nullifier).filter (fun p => !p.revealed),
          a.prefId = p.id
          ∧ ∃ c, p.commitHash = some c ∧ verifyCommitment a.token c = true
            ∧ (a.userMatched = true → a.token ∈ dedupKeepFirst req.matchTokens)
            ∧ (a.userMatched = false → a.token = p.matchToken))
    ∧ (∀ t, (userTokens (processReveals (((updatePoolStatusStore s req.poolId
          now).getPreferencesByNullifier req.poolId req.nullifier).filter
          (fun p => !p.revealed)) (dedupKeepFirst req.matchTokens)).1).count t ≤ 1)
    ∧ (∀ p ∈ ((updatePoolStatusStore s req.poolId now).getPreferencesByNullifier
          req.poolId req.nullifier).filter (fun p => !p.revealed),
        p.matchToken ≠ [] →
        (∃ c, p.commitHash = some c ∧ verifyCommitment p.matchToken c = true) →
        ∃ a ∈ (processReveals (((updatePoolStatusStore s req.poolId
            now).getPreferencesByNullifier req.poolId req.nullifier).filter
            (fun p => !p.revealed)) (dedupKeepFirst req.matchTokens)).1, a.prefId = p.id)
    ∧ (∀ t ∈ dedupKeepFirst req.matchTokens,
        (∀ p ∈ ((updatePoolStatusStore s req.poolId now).getPreferencesByNullifier
            req.poolId req.nullifier).filter (fun p => !p.revealed),
          ∀ c, p.commitHash = some c → verifyCommitment t c = false) →
        t ∈ (processReveals (((updatePoolStatusStore s req.poolId
            now).getPreferencesByNullifier req.poolId req.nullifier).filter
            (fun p => !p.revealed)) (dedupKeepFirst req.matchTokens)).2) := by
  refine ⟨?_, processReveals_assign_sound _ _,
    fun t => processReveals_userTokens_once _ _ t,
    processReveals_self_reveal _ _,
    fun t ht hno => processReveals_unmatched_leftover _ _ t ht hno⟩
  unfold revealPreferences
  rw [hpool]
  dsimp only
  rw [heff]
  unfold handleReveal
  rw [if_neg (by simpa using hcomm)]
  dsimp only
  rw [if_neg (by simpa using hunrev)]

/-- Witness for C6: a reveal-phase pool with one committed real
preference (token `[1]`) and one committed decoy (token `[9]`) under
nullifier `"n1"`; the user reveals `[1]`. -/
theorem revealPreferences_semantics_witness :
    revealPreferences
        ⟨[⟨"pool1", "Pool", some 10, 100, none, .reveal⟩],
         [⟨"a", "pool1", [1], some (commitToken [1]), false, 5, "n1", none⟩,
          ⟨"b", "pool1", [9], some (commitToken [9]), false, 5, "n1", none⟩], []⟩
        ⟨"pool1", [[1]], "n1"⟩ 50
      = if (processReveals ((((updatePoolStatusStore
            ⟨[⟨"pool1", "Pool", some 10, 100, none, .reveal⟩],
             [⟨"a", "pool1", [1], some (commitToken [1]), false, 5, "n1", none⟩,
              ⟨"b", "pool1", [9], some (commitToken [9]), false, 5, "n1", none⟩], []⟩
            "pool1" 50)).getPreferencesByNullifier "pool1" "n1").filter
            (fun p => !p.revealed)) (dedupKeepFirst [[1]])).2.length > 0
        then (.error .COMMITMENT_MISMATCH,
          applyAssignments (updatePoolStatusStore
            ⟨[⟨"pool1", "Pool", some 10, 100, none, .reveal⟩],
             [⟨"a", "pool1", [1], some (commitToken [1]), false, 5, "n1", none⟩,
              ⟨"b", "pool1", [9], some (commitToken [9]), false, 5, "n1", none⟩], []⟩
            "pool1" 50)
            (processReveals ((((updatePoolStatusStore
              ⟨[⟨"pool1", "Pool", some 10, 100, none, .reveal⟩],
               [⟨"a", "pool1", [1], some (commitToken [1]), false, 5, "n1", none⟩,
                ⟨"b", "pool1", [9], some (commitToken [9]), false, 5, "n1", none⟩], []⟩
              "pool1" 50)).getPreferencesByNullifier "pool1" "n1").filter
              (fun p => !p.revealed)) (dedupKeepFirst [[1]])).1)
        else (.ok ⟨true, (processReveals ((((updatePoolStatusStore
              ⟨[⟨"pool1", "Pool", some 10, 100, none, .reveal⟩],
               [⟨"a", "pool1", [1], some (commitToken [1]), false, 5, "n1", none⟩,
                ⟨"b", "pool1", [9], some (commitToken [9]), false, 5, "n1", none⟩], []⟩
              "pool1" 50)).getPreferencesByNullifier "pool1" "n1").filter
              (fun p => !p.revealed)) (dedupKeepFirst [[1]])).1.length⟩,
          applyAssignments (updatePoolStatusStore
            ⟨[⟨"pool1", "Pool", some 10, 100, none, .reveal⟩],
             [⟨"a", "pool1", [1], some (commitToken [1]), false, 5, "n1", none⟩,
              ⟨"b", "pool1", [9], some (commitToken [9]), false, 5, "n1", none⟩], []⟩
            "pool1" 50)
            (processReveals ((((updatePoolStatusStore
              ⟨[⟨"pool1", "Pool", some 10, 100, none, .reveal⟩],
               [⟨"a", "pool1", [1], some (commitToken [1]), false, 5, "n1", none⟩,
                ⟨"b", "pool1", [9], some (commitToken [9]), false, 5, "n1", none⟩], []⟩
              "pool1" 50)).getPreferencesByNullifier "pool1" "n1").filter
              (fun p => !p.revealed)) (dedupKeepFirst [[1]])).1) :=
  (revealPreferences_semantics
    ⟨[⟨"pool1", "Pool", some 10, 100, none, .reveal⟩],
     [⟨"a", "pool1", [1], some (commitToken [1]), false, 5, "n1", none⟩,
      ⟨"b", "pool1", [9], some (commitToken [9]), false, 5, "n1", none⟩], []⟩
    ⟨"pool1", [[1]], "n1"⟩ 50 ⟨"pool1", "Pool", some 10, 100, none, .reveal⟩
    (by decide) (by decide) (by decide) (by decide)).1

/-- Claim C10: `revealPreferences` is not atomic on failure.  When some
supplied tokens match no commitment (non-empty leftover), the call
returns `COMMITMENT_MISMATCH` — but the returned store is the partially
updated one: every preference the loop processed (matched by a user
token, or a self-verifying decoy) is already flipped to revealed with
its token written, and no rollback happens. -/
theorem revealPreferences_not_atomic (s : Store) (req : RevealPreferencesRequest) (now : Nat)
    (pool : Pool)
    (hpool : s.getPool req.poolId = some pool)
    (heff : getEffectiveStatus pool now = .reveal)
    (hcomm : (updatePoolStatusStore s req.poolId now).getPreferencesByNullifier
      req.poolId req.nullifier ≠ [])
    (hunrev : ((updatePoolStatusStore s req.poolId now).getPreferencesByNullifier
      req.poolId req.nullifier).filter (fun p => !p.revealed) ≠ [])
    (hids : ((((updatePoolStatusStore s req.poolId now).getPreferencesByNullifier
      req.poolId req.nullifier).filter (fun p => !p.revealed)).map
      (fun p => p.id)).Nodup)
    (hleft : (processReveals (((updatePoolStatusStore s req.poolId
      now).getPreferencesByNullifier req.poolId req.nullifier).filter
      (fun p => !p.revealed)) (dedupKeepFirst req.matchTokens)).2 ≠ []) :
    revealPreferences s req now
      = (.error .COMMITMENT_MISMATCH,
        applyAssignments (updatePoolStatusStore s req.poolId now)
          (processReveals (((updatePoolStatusStore s req.poolId now).getPreferencesByNullifier
            req.poolId req.nullifier).filter (fun p => !p.revealed))
            (dedupKeepFirst req.matchTokens)).1)
    ∧ ∀ a ∈ (processReveals (((updatePoolStatusStore s req.poolId now).getPreferencesByNullifier
          req.poolId req.nullifier).filter (fun p => !p.revealed))
          (dedupKeepFirst req.matchTokens)).1,
        ∃ p ∈ (applyAssignments (updatePoolStatusStore s req.poolId now)
            (processReveals (((updatePoolStatusStore s req.poolId now).getPreferencesByNullifier
              req.poolId req.nullifier).filter (fun p => !p.revealed))
              (dedupKeepFirst req.matchTokens)).1).preferences,
          p.id = a.prefId ∧ p.revealed = true ∧ p.matchToken = a.token := by
  constructor
  · unfold revealPreferences
    rw [hpool]
    dsimp only
    rw [heff]
    unfold handleReveal
    rw [if_neg (by simpa using hcomm)]
    dsimp only
    rw [if_neg (by simpa using hunrev)]
    rw [if_pos (List.length_pos.mpr hleft)]
  · apply applyAssignments_updates
    · exact (processReveals_prefIds_sublist _ _).nodup hids
    · intro a ha
      obtain ⟨p, hp, hpid, -⟩ := processReveals_assign_sound _ _ a ha
      exact ⟨p, mem_unrevealed_mem_store _ req.poolId req.nullifier p hp, hpid.symm⟩

/-- Witness for C10: the user supplies `[1]` (matching the committed
preference) and `[2]` (matching nothing); the call fails with
`COMMITMENT_MISMATCH` while the matched preference is already revealed
in the returned store. -/
theorem revealPreferences_not_atomic_witness :
    revealPreferences
        ⟨[⟨"pool1", "Pool", some 10, 100, none, .reveal⟩],
         [⟨"a", "pool1", [1], some (commitToken [1]), false, 5, "n1", none⟩], []⟩
        ⟨"pool1", [[1], [2]], "n1"⟩ 50
      = (.error .COMMITMENT_MISMATCH,
        applyAssignments (updatePoolStatusStore
          ⟨[⟨"pool1", "Pool", some 10, 100, none, .reveal⟩],
           [⟨"a", "pool1", [1], some (commitToken [1]), false, 5, "n1", none⟩], []⟩
          "pool1" 50)
          (processReveals ((((updatePoolStatusStore
            ⟨[⟨"pool1", "Pool", some 10, 100, none, .reveal⟩],
             [⟨"a", "pool1", [1], some (commitToken [1]), false, 5, "n1", none⟩], []⟩
            "pool1" 50)).getPreferencesByNullifier "pool1" "n1").filter
            (fun p => !p.revealed)) (dedupKeepFirst [[1], [2]])).1)
    ∧ ∀ a ∈ (processReveals ((((updatePoolStatusStore
          ⟨[⟨"pool1", "Pool", some 10, 100, none, .reveal⟩],
           [⟨"a", "pool1", [1], some (commitToken [1]), false, 5, "n1", none⟩], []⟩
          "pool1" 50)).getPreferencesByNullifier "pool1" "n1").filter
          (fun p => !p.revealed)) (dedupKeepFirst [[1], [2]])).1,
        ∃ p ∈ (applyAssignments (updatePoolStatusStore
            ⟨[⟨"pool1", "Pool", some 10, 100, none, .reveal⟩],
             [⟨"a", "pool1", [1], some (commitToken [1]), false, 5, "n1", none⟩], []⟩
            "pool1" 50)
            (processReveals ((((updatePoolStatusStore
              ⟨[⟨"pool1", "Pool", some 10, 100, none, .reveal⟩],
               [⟨"a", "pool1", [1], some (commitToken [1]), false, 5, "n1", none⟩], []⟩
              "pool1" 50)).getPreferencesByNullifier "pool1" "n1").filter
              (fun p => !p.revealed)) (dedupKeepFirst [[1], [2]])).1).preferences,
          p.id = a.prefId ∧ p.revealed = true ∧ p.matchToken = a.token :=
  revealPreferences_not_atomic
    ⟨[⟨"pool1", "Pool", some 10, 100, none, .reveal⟩],
     [⟨"a", "pool1", [1], some (commitToken [1]), false, 5, "n1", none⟩], []⟩
    ⟨"pool1", [[1], [2]], "n1"⟩ 50 ⟨"pool1", "Pool", some 10, 100, none, .reveal⟩
    (by decide) (by decide) (by decide) (by decide) (by decide) (by decide)

end Rendezvous
